import Mathlib

/-
Verification of the reconciliation engine in src/main.py of the
DavinciResolve_Automation_SkyDiveSriLanka repository.

Modelling conventions, used throughout:
* File-system paths are modelled by base names only.  The program always
  builds paths as os.path.join(folder, name) and later recovers the base
  name with os.path.basename, and directory-entry names produced by
  os.scandir never contain a path separator, so both operations are the
  identity on the carried name.
* Python character classes (\d, \s, str.lower, str.strip) are modelled on
  ASCII characters.  Folder and file names in this workflow are ASCII; the
  Unicode extensions of the Python classes are out of scope.
* A Python set of strings is modelled by a deduplicated list; the program
  only observes membership, emptiness and size of its sets, so the
  (implementation-defined) iteration order of a Python set is irrelevant.
* The DaVinci Resolve media pool is the external Media Library collaborator.
  Its tree of bins is modelled by the Bin type below.  ImportMedia is
  modelled from the spec's Media Library contract: on success the imported
  clips appear in the root bin, named by their files' base names; on
  failure nothing changes.  MoveClips removes a clip from the root bin and
  appends it to the destination bin.
-/

namespace SkyDive

/-- A directory entry as returned by os.scandir: a base name together with
whether the entry is a regular file (isFile = false means directory). -/
structure DirEntry where
  name : String
  isFile : Bool
deriving DecidableEq, Repr

/-- VIDEO_EXTENSIONS (src/main.py line 9). -/
def videoExtensions : List String := [".mp4", ".mov", ".mxf", ".avi"]

/-- name.lower(), restricted to ASCII letters. -/
def lowerStr (s : String) : String := String.mk (s.data.map Char.toLower)

/-- name.lower().endswith(VIDEO_EXTENSIONS): the lowercased name ends with
one of the recognized video extensions (src/main.py lines 142, 149). -/
def isVideoName (s : String) : Bool :=
  videoExtensions.any (fun ext => ext.data.isSuffixOf (lowerStr s).data)

/-- Numeric value of an ASCII digit character. -/
def digitVal (c : Char) : Nat := c.toNat - '0'.toNat

/-- Worker for digitRuns: walks the characters, carrying the value of the
digit run currently being read (none when the previous character was not a
digit), and emits each maximal run's decimal value when it ends. -/
def digitRunsAux : List Char → Option Nat → List Nat
  | [], none => []
  | [], some v => [v]
  | c :: rest, none =>
      if c.isDigit then digitRunsAux rest (some (digitVal c)) else digitRunsAux rest none
  | c :: rest, some v =>
      if c.isDigit then digitRunsAux rest (some (v * 10 + digitVal c))
      else v :: digitRunsAux rest none

/-- Model of [int(num) for num in re.findall(r"\d+", s)] (src/main.py line
151): the decimal values of the maximal digit runs of s, in order. -/
def digitRuns (s : String) : List Nat := digitRunsAux s.data none

/-- max(numbers) over the digit runs of a filename; none when the filename
contains no digit (src/main.py lines 152-154). -/
def maxDigitRun (s : String) : Option Nat :=
  match digitRuns s with
  | [] => none
  | n :: ns => some (ns.foldl max n)

/-- The sort key the amended C4 statement speaks about: the maximum digit
run of a name, defaulting to 0 (the default is never used on names that
pass the load-video filter, which requires at least one digit run). -/
def maxKeyOf (s : String) : Nat := (maxDigitRun s).getD 0

/-- get_missing_files (src/main.py lines 138-143): names of the on-disk
video files of a folder that are not among the clip names of the bin.
Python set difference is modelled as dedup-then-filter. -/
def get_missing_files (binClips : List String) (entries : List DirEntry) : List String :=
  (((entries.filter (fun e => e.isFile && isVideoName e.name)).map (fun e => e.name)).dedup).filter
    (fun x => decide (x ∉ binClips))

/-- The on-disk video file names of a folder, in listing order (the
left-hand side of get_missing_files' set difference, before dedup). -/
def videoFilesOf (entries : List DirEntry) : List String :=
  (entries.filter (fun e => e.isFile && isVideoName e.name)).map (fun e => e.name)

/-- Comparison used to sort load videos: by the numeric key attached to
each name (src/main.py line 158, load_videos.sort(key=lambda x: x[0])). -/
def keyLe (x y : Nat × String) : Prop := x.1 ≤ y.1

instance : DecidableRel keyLe := fun x y => Nat.decLe x.1 y.1

instance : IsTotal (Nat × String) keyLe := ⟨fun a b => Nat.le_total a.1 b.1⟩

instance : IsTrans (Nat × String) keyLe := ⟨fun _ _ _ => Nat.le_trans⟩

/-- The load_videos list built by the scan loop of
_find_and_sort_load_videos before sorting (src/main.py lines 147-155):
each immediate file with a video extension and at least one digit run,
paired with its maximum digit run, in listing order. -/
def loadVideoKeyed (entries : List DirEntry) : List (Nat × String) :=
  entries.filterMap (fun e =>
    if e.isFile && isVideoName e.name then
      match maxDigitRun e.name with
      | some k => some (k, e.name)
      | none => none
    else none)

/-- _find_and_sort_load_videos (src/main.py lines 145-159): keep the
immediate files with a video extension and at least one digit run, key each
by its maximum digit run, and sort ascending by key.  Python's list.sort is
a stable sort; insertionSort with keyLe is a stable sort as well, and any
two stable sorts of the same keyed list agree, so the results coincide. -/
def find_and_sort_load_videos (entries : List DirEntry) : List String :=
  ((loadVideoKeyed entries).insertionSort keyLe).map (fun x => x.2)

/-- _get_load_number_from_bin (src/main.py lines 161-164), the model of
re.search(r"L(\d+)$", s): the pattern matches exactly when the string ends
in one or more digits immediately preceded by a literal L character, and
the captured group is that maximal trailing digit run. -/
def get_load_number_from_bin (s : String) : Option Nat :=
  let rev := s.data.reverse
  let ds := rev.takeWhile Char.isDigit
  if ds.isEmpty then none
  else
    match rev.dropWhile Char.isDigit with
    | 'L' :: _ => some ((ds.reverse).foldl (fun v c => v * 10 + digitVal c) 0)
    | _ => none

/-- Whether DATE_PATTERN = \d{4}-\d{2}-\d{2} matches at the head of the
character list. -/
def dateShapeAt (l : List Char) : Bool :=
  decide (10 ≤ l.length) &&
  (l.getD 0 ' ').isDigit && (l.getD 1 ' ').isDigit &&
  (l.getD 2 ' ').isDigit && (l.getD 3 ' ').isDigit &&
  ((l.getD 4 ' ') == '-') &&
  (l.getD 5 ' ').isDigit && (l.getD 6 ' ').isDigit &&
  ((l.getD 7 ' ') == '-') &&
  (l.getD 8 ' ').isDigit && (l.getD 9 ' ').isDigit

/-- Leftmost match of DATE_PATTERN: the first position whose next ten
characters have the shape ####-##-##, returned verbatim. -/
def firstDateAux : List Char → Option (List Char)
  | [] => none
  | c :: rest =>
      if dateShapeAt (c :: rest) then some ((c :: rest).take 10) else firstDateAux rest

/-- re.search(DATE_PATTERN, name) (src/main.py line 45). -/
def firstDateSub (s : String) : Option String := (firstDateAux s.data).map String.mk

/-- The date_prefix computation (src/main.py lines 44-46).  The today
argument models datetime.now().strftime("%Y-%m-%d"), the current local
date, which is environmental input. -/
def derive_date_pref (rootName today : String) : String :=
  match firstDateSub rootName with
  | some d => d
  | none => today

/-- d is the leftmost ####-##-## shaped substring of s: it is ten
characters long, occurs in s at a position where DATE_PATTERN matches, and
DATE_PATTERN matches at no earlier position. -/
def IsFirstDateMatch (s d : String) : Prop :=
  d.data.length = 10 ∧
  ∃ p q, s.data = p ++ d.data ++ q ∧ dateShapeAt (d.data ++ q) = true ∧
    ∀ p' q', s.data = p' ++ q' → p'.length < p.length → dateShapeAt q' = false

/-- \d{1,2} followed by whatever the continuation k accepts: one digit, or
two digits, then k on the rest (regex alternation as existence of a
match). -/
def oneTwoDigits (k : List Char → Bool) : List Char → Bool
  | [] => false
  | c :: rest =>
      c.isDigit &&
        (k rest ||
          match rest with
          | c2 :: r2 => c2.isDigit && k r2
          | [] => false)

/-- A literal slash followed by whatever k accepts. -/
def slashThen (k : List Char → Bool) : List Char → Bool
  | '/' :: rest => k rest
  | _ => false

/-- \d{4}.*$ : four digits and then anything up to the end of the string. -/
def fourDigitsThenAny : List Char → Bool
  | a :: b :: c :: d :: _ => a.isDigit && b.isDigit && c.isDigit && d.isDigit
  | _ => false

/-- Whether FOLDER_DATE_PATTERN = \s*\d{1,2}/\d{1,2}/\d{4}.*$ (src/main.py
line 8) matches at this position: some whitespace, then a D/D/YYYY date,
then anything to the end. -/
def folderDateAt : List Char → Bool
  | [] => false
  | c :: rest =>
      oneTwoDigits (slashThen (oneTwoDigits (slashThen fourDigitsThenAny))) (c :: rest) ||
        (c.isWhitespace && folderDateAt rest)

/-- Everything strictly before the leftmost FOLDER_DATE_PATTERN match; the
whole string when there is none.  re.sub replaces the match, which always
extends to the end of the string, by the empty string. -/
def dropFolderDate : List Char → List Char
  | [] => []
  | c :: rest => if folderDateAt (c :: rest) then [] else c :: dropFolderDate rest

/-- str.strip(): drop whitespace from both ends (ASCII whitespace; see the
header note on Python character classes). -/
def stripChars (l : List Char) : List Char :=
  ((l.dropWhile Char.isWhitespace).reverse.dropWhile Char.isWhitespace).reverse

/-- clean_folder_name (src/main.py lines 124-126): strip a trailing
D/D/YYYY date (and everything after it) and surrounding whitespace. -/
def clean_folder_name (s : String) : String := String.mk (stripChars (dropFolderDate s.data))

mutual
/-- A media-pool bin: its name (GetName), clip names (GetClipList, clips
identified by name only, as in the program), and sub-bins
(GetSubFolderList) in listing order. -/
inductive Bin : Type where
  | node (name : String) (clips : List String) (subs : BinList) : Bin
/-- Sub-bin lists, mutual with Bin so that all functions and proofs can use
plain mutual structural recursion. -/
inductive BinList : Type where
  | nil : BinList
  | cons (b : Bin) (bs : BinList) : BinList
end

def Bin.name : Bin → String
  | .node n _ _ => n

def Bin.clips : Bin → List String
  | .node _ cs _ => cs

def Bin.subs : Bin → BinList
  | .node _ _ subs => subs

mutual
/-- find_bin_by_name (src/main.py lines 128-136): depth-first search that
tests the given bin itself first, then its sub-bins in listing order. -/
def find_bin_by_name : Bin → String → Option Bin
  | .node n cs subs, t =>
      if n = t then some (.node n cs subs) else findInSubs subs t
/-- The for-loop of find_bin_by_name: first non-None recursive result. -/
def findInSubs : BinList → String → Option Bin
  | .nil, _ => none
  | .cons b bs, t =>
      match find_bin_by_name b t with
      | some r => some r
      | none => findInSubs bs t
end

mutual
/-- All bin names of a subtree, root included (depth-first order). -/
def allNames : Bin → List String
  | .node n _ subs => n :: allNamesL subs
def allNamesL : BinList → List String
  | .nil => []
  | .cons b bs => allNames b ++ allNamesL bs
end

mutual
/-- Boolean containment test for a name anywhere in a subtree. -/
def hasName : Bin → String → Bool
  | .node n _ subs, t => (n == t) || hasNameL subs t
def hasNameL : BinList → String → Bool
  | .nil, _ => false
  | .cons b bs, t => hasName b t || hasNameL bs t
end

mutual
/-- Replace the clip list of the first bin, in find_bin_by_name order,
whose name is t, by f applied to it; identity when no bin is named t.
This models mutation of the bin object that find_bin_by_name or
AddSubFolder handed to the program: that object is exactly the first
depth-first match of its name. -/
def updateBin : Bin → String → (List String → List String) → Bin
  | .node n cs subs, t, f =>
      if n = t then .node n (f cs) subs else .node n cs (updateSubs subs t f)
def updateSubs : BinList → String → (List String → List String) → BinList
  | .nil, _, _ => .nil
  | .cons b bs, t, f =>
      if hasName b t then .cons (updateBin b t f) bs else .cons b (updateSubs bs t f)
end

def snocSubs : BinList → Bin → BinList
  | .nil, x => .cons x .nil
  | .cons b bs, x => .cons b (snocSubs bs x)

/-- media_pool.AddSubFolder(root_bin, name): modelled from the spec's Media
Library contract, a fresh empty bin appended at the end of the root bin's
sub-bin list. -/
def addUnderRoot : Bin → String → Bin
  | .node n cs subs, m => .node n cs (snocSubs subs (.node m [] .nil))

/-- Replace the root bin's own clip list.  Imports land in the root bin and
moves take clips out of it, so only the root's clip list is ever written
directly. -/
def setRootClips : Bin → List String → Bin
  | .node n _ subs, l => .node n l subs

/-- Clip list of the first depth-first bin named t, when one exists. -/
def clipsAt (b : Bin) (t : String) : Option (List String) :=
  (find_bin_by_name b t).map Bin.clips

/-- Clip list of the first depth-first bin named t, defaulting to []. -/
def binClipsAt (b : Bin) (t : String) : List String := (clipsAt b t).getD []

/-- clipsAt restricted to a sub-bin list. -/
def clipsAtL (bs : BinList) (t : String) : Option (List String) :=
  (findInSubs bs t).map Bin.clips

/-- _import_load_video (src/main.py lines 166-203).  Arguments:
lib is the whole media-pool tree (its root node is GetRootFolder);
binName names the bin object the caller holds (the first depth-first bin of
that name); loadNumber and loadVideos are as in the source; importOk is the
boolean the host returns from ImportMedia; rootAfter is the root bin's clip
list as re-read right after a successful ImportMedia call (kept as a
parameter so the function's behaviour is stated for an arbitrary host
response; the run-level wrapper instantiates it from the spec's contract).
Returns the new tree, the function's boolean result, and the argument
lists of the ImportMedia calls issued.  Call sites guarantee
loadNumber is at least 1 (the main loop skips load number 0 and absent),
so Python's negative-index semantics for load_videos[load_number - 1] is
unreachable and the Nat subtraction below is faithful. -/
def import_load_video (lib : Bin) (binName : String) (loadNumber : Nat)
    (loadVideos : List String) (importOk : Bool) (rootAfter : List String) :
    Bin × Bool × List (List String) :=
  if loadVideos.isEmpty then (lib, false, [])
  else if loadVideos.length < loadNumber then (lib, false, [])
  else
    let videoName := loadVideos.getD (loadNumber - 1) ""
    if videoName ∈ binClipsAt lib binName then (lib, true, [])
    else if importOk then
      if videoName ∈ rootAfter then
        (updateBin (setRootClips lib (rootAfter.erase videoName)) binName
          (fun cs => cs ++ [videoName]), true, [[videoName]])
      else (setRootClips lib rootAfter, false, [[videoName]])
    else (lib, false, [[videoName]])

/-- _import_vids (src/main.py lines 205-227).  Same conventions as
import_load_video.  On a successful bulk import the move loop walks the
root bin's clip list and moves every clip whose name is in the missing set
into the target bin; MoveClips itself returns nothing, so each single move
is modelled as succeeding (the source cannot observe a move failure). -/
def import_vids (lib : Bin) (binName : String) (entries : List DirEntry)
    (importOk : Bool) (rootAfter : List String) : Bin × Bool × List (List String) :=
  let missing := get_missing_files (binClipsAt lib binName) entries
  if missing.isEmpty then (lib, false, [])
  else if importOk then
    (updateBin (setRootClips lib (rootAfter.filter (fun c => decide (c ∉ missing))))
      binName (fun cs => cs ++ rootAfter.filter (fun c => decide (c ∈ missing))),
     true, [missing])
  else (lib, false, [missing])

/-- Host responses for the two fallible Media Library operations used by
one run: whether ImportMedia succeeds and whether AddSubFolder succeeds.
A single flag per operation models a host that behaves uniformly during
the run. -/
structure Env where
  importOk : Bool
  createOk : Bool
deriving DecidableEq, Repr

/-- The file system as seen by one run: the base name of the root folder,
its immediate entries in os.scandir order, and the immediate entries of
each subfolder (looked up by subfolder name). -/
structure DiskModel where
  rootName : String
  entries : List DirEntry
  sub : List (String × List DirEntry)
deriving DecidableEq, Repr

/-- os.scandir(folder.path) for a subfolder of the root. -/
def subEntries (d : DiskModel) (folder : String) : List DirEntry :=
  ((d.sub.find? (fun p => p.1 == folder)).map (fun p => p.2)).getD []

/-- State threaded through the main loop of create_media_bins: the
media-pool tree, the created_bins and updated_bins accumulators, the
number of ImportMedia calls issued so far, and fcTrace, the bin names that
reached the find-or-create stage, in order (pure instrumentation: no other
component ever depends on it). -/
structure RunState where
  lib : Bin
  created : List String
  updated : List String
  importCount : Nat
  fcTrace : List String

/-- bin_name = date_prefix - cleaned folder name (src/main.py line 72). -/
def binNameOf (datePref : String) (e : DirEntry) : String :=
  datePref ++ " - " ++ clean_folder_name e.name

/-- load_number of a subfolder, extracted from its composite bin name
(src/main.py line 73). -/
def loadNumOf (datePref : String) (e : DirEntry) : Option Nat :=
  get_load_number_from_bin (binNameOf datePref e)

/-- The body of the main loop after the load-number gate (src/main.py
lines 79-99): find or create the bin, fill its missing files, then assign
its load video.  The bin object held by the source is the first
depth-first bin named binName: for the found branch by definition of
find_bin_by_name, and for the created branch because AddSubFolder is only
reached when no bin of that name exists, so the appended fresh bin is the
unique (hence first) match. -/
def runProcess (d : DiskModel) (datePref : String) (loadVideos : List String)
    (env : Env) (st : RunState) (e : DirEntry) (n : Nat) : RunState :=
  match find_bin_by_name st.lib (binNameOf datePref e) with
  | some _ =>
      let r1 := import_vids st.lib (binNameOf datePref e) (subEntries d e.name) env.importOk
        (st.lib.clips ++ get_missing_files (binClipsAt st.lib (binNameOf datePref e))
          (subEntries d e.name))
      let r2 := import_load_video r1.1 (binNameOf datePref e) (n + 1) loadVideos env.importOk
        (r1.1.clips ++ [loadVideos.getD n ""])
      { st with
        lib := r2.1
        updated := st.updated ++ (if r1.2.1 then [binNameOf datePref e] else [])
        importCount := st.importCount + r1.2.2.length + r2.2.2.length }
  | none =>
      if env.createOk then
        let lib0 := addUnderRoot st.lib (binNameOf datePref e)
        let r1 := import_vids lib0 (binNameOf datePref e) (subEntries d e.name) env.importOk
          (lib0.clips ++ get_missing_files (binClipsAt lib0 (binNameOf datePref e))
            (subEntries d e.name))
        let r2 := import_load_video r1.1 (binNameOf datePref e) (n + 1) loadVideos env.importOk
          (r1.1.clips ++ [loadVideos.getD n ""])
        { st with
          lib := r2.1
          created := st.created ++ [binNameOf datePref e]
          importCount := st.importCount + r1.2.2.length + r2.2.2.length }
      else st

/-- One iteration of the main loop (src/main.py lines 70-101): compute the
bin name and load number, skip the subfolder when the load number is
absent or 0 (the Python truthiness test "if not load_number"), otherwise
record the find-or-create attempt and process the subfolder. -/
def runStep (d : DiskModel) (datePref : String) (loadVideos : List String)
    (env : Env) (st : RunState) (e : DirEntry) : RunState :=
  match loadNumOf datePref e with
  | none => st
  | some 0 => st
  | some (n + 1) =>
      runProcess d datePref loadVideos env
        { st with fcTrace := st.fcTrace ++ [binNameOf datePref e] } e n

/-- create_media_bins (src/main.py lines 27-122), after its precondition
checks (folder chosen and existing, media pool reachable): derive the date
prefix, scan and sort the load videos once, then fold the per-subfolder
step over the immediate subdirectories in listing order.  An empty
subfolder list aborts with an empty result. -/
def create_media_bins (d : DiskModel) (today : String) (lib : Bin) (env : Env) : RunState :=
  let datePref := derive_date_pref d.rootName today
  let loadVideos := find_and_sort_load_videos d.entries
  let subs := d.entries.filter (fun e => !e.isFile)
  if subs.isEmpty then ⟨lib, [], [], 0, []⟩
  else subs.foldl (runStep d datePref loadVideos env) ⟨lib, [], [], 0, []⟩

/-- The Python return value, created_bins + updated_bins (src/main.py
line 118). -/
def create_media_bins_result (d : DiskModel) (today : String) (lib : Bin) (env : Env) :
    List String :=
  (create_media_bins d today lib env).created ++ (create_media_bins d today lib env).updated

/-- The idempotence invariant for one subfolder: whenever the subfolder
carries a positive load number, its bin exists, holds all of the
subfolder's on-disk video files, and (when the load-video sequence can
serve its load number at all) holds its load video.  A state satisfying
this for a subfolder makes the main loop's iteration for that subfolder a
complete no-op. -/
def Reconciled (d : DiskModel) (datePref : String) (loadVideos : List String)
    (lib : Bin) (e : DirEntry) : Prop :=
  ∀ n, loadNumOf datePref e = some (n + 1) →
    hasName lib (binNameOf datePref e) = true ∧
    (∀ f ∈ videoFilesOf (subEntries d e.name), f ∈ binClipsAt lib (binNameOf datePref e)) ∧
    (loadVideos ≠ [] → n + 1 ≤ loadVideos.length →
      loadVideos.getD n "" ∈ binClipsAt lib (binNameOf datePref e))

theorem mem_videoFilesOf {es : List DirEntry} {x : String} :
    x ∈ videoFilesOf es ↔ ∃ e, e ∈ es ∧ e.isFile = true ∧ isVideoName e.name = true ∧ e.name = x := by
  simp only [videoFilesOf, List.mem_map, List.mem_filter, Bool.and_eq_true]
  constructor
  · rintro ⟨e, ⟨he, hf, hv⟩, hn⟩
    exact ⟨e, he, hf, hv, hn⟩
  · rintro ⟨e, he, hf, hv, hn⟩
    exact ⟨e, ⟨he, hf, hv⟩, hn⟩

theorem mem_get_missing_files {bc : List String} {es : List DirEntry} {x : String} :
    x ∈ get_missing_files bc es ↔ x ∈ videoFilesOf es ∧ x ∉ bc := by
  simp [get_missing_files, videoFilesOf, List.mem_filter, List.mem_dedup]

theorem get_missing_files_eq_nil {bc : List String} {es : List DirEntry} :
    get_missing_files bc es = [] ↔ ∀ x ∈ videoFilesOf es, x ∈ bc := by
  rw [List.eq_nil_iff_forall_not_mem]
  constructor
  · intro h x hx
    by_contra hb
    exact h x (mem_get_missing_files.mpr ⟨hx, hb⟩)
  · intro h x hx
    obtain ⟨h1, h2⟩ := mem_get_missing_files.mp hx
    exact h2 (h x h1)

mutual
theorem find_isSome_eq_hasName : ∀ (b : Bin) (t : String),
    (find_bin_by_name b t).isSome = hasName b t
  | .node n cs subs, t => by
      simp only [find_bin_by_name, hasName]
      by_cases h : n = t
      · simp [h]
      · simp [h, findL_isSome_eq_hasNameL subs t]
theorem findL_isSome_eq_hasNameL : ∀ (bs : BinList) (t : String),
    (findInSubs bs t).isSome = hasNameL bs t
  | .nil, _ => by simp [findInSubs, hasNameL]
  | .cons b bs, t => by
      simp only [findInSubs, hasNameL]
      cases hb : find_bin_by_name b t with
      | some r =>
          have := find_isSome_eq_hasName b t
          rw [hb] at this
          simp [← this]
      | none =>
          have := find_isSome_eq_hasName b t
          rw [hb] at this
          simp [← this, findL_isSome_eq_hasNameL bs t]
end

mutual
theorem mem_allNames_iff : ∀ (b : Bin) (t : String),
    t ∈ allNames b ↔ hasName b t = true
  | .node n cs subs, t => by
      simp only [allNames, hasName, List.mem_cons, Bool.or_eq_true, beq_iff_eq]
      constructor
      · rintro (h | h)
        · exact Or.inl h.symm
        · exact Or.inr ((mem_allNamesL_iff subs t).mp h)
      · rintro (h | h)
        · exact Or.inl h.symm
        · exact Or.inr ((mem_allNamesL_iff subs t).mpr h)
theorem mem_allNamesL_iff : ∀ (bs : BinList) (t : String),
    t ∈ allNamesL bs ↔ hasNameL bs t = true
  | .nil, _ => by simp [allNamesL, hasNameL]
  | .cons b bs, t => by
      simp only [allNamesL, hasNameL, List.mem_append, Bool.or_eq_true]
      rw [mem_allNames_iff b t, mem_allNamesL_iff bs t]
end

theorem find_eq_none_iff {b : Bin} {t : String} :
    find_bin_by_name b t = none ↔ t ∉ allNames b := by
  rw [← Option.not_isSome_iff_eq_none, find_isSome_eq_hasName, mem_allNames_iff]

mutual
theorem find_name : ∀ (b : Bin) (t : String) (r : Bin),
    find_bin_by_name b t = some r → r.name = t
  | .node n cs subs, t, r => by
      simp only [find_bin_by_name]
      by_cases h : n = t
      · simp only [h, if_pos rfl]
        rintro ⟨rfl⟩
        simp [Bin.name, h]
      · simp only [if_neg h]
        exact findL_name subs t r
theorem findL_name : ∀ (bs : BinList) (t : String) (r : Bin),
    findInSubs bs t = some r → r.name = t
  | .nil, _, _ => by simp [findInSubs]
  | .cons b bs, t, r => by
      simp only [findInSubs]
      cases hb : find_bin_by_name b t with
      | some x =>
          rintro ⟨rfl⟩
          exact find_name b t r hb
      | none => exact findL_name bs t r
end

theorem clipsAt_node (n : String) (cs : List String) (subs : BinList) (t : String) :
    clipsAt (.node n cs subs) t = if n = t then some cs else clipsAtL subs t := by
  simp only [clipsAt, find_bin_by_name]
  split
  · simp [Bin.clips]
  · rfl

theorem clipsAt_isSome_eq_hasName (b : Bin) (t : String) :
    (clipsAt b t).isSome = hasName b t := by
  simp [clipsAt, find_isSome_eq_hasName]

theorem clipsAt_of_hasName {b : Bin} {t : String} (h : hasName b t = true) :
    ∃ l, clipsAt b t = some l := by
  have := clipsAt_isSome_eq_hasName b t
  rw [h] at this
  exact Option.isSome_iff_exists.mp this

theorem clipsAt_of_not_hasName {b : Bin} {t : String} (h : hasName b t = false) :
    clipsAt b t = none := by
  have h1 : (clipsAt b t).isSome = false := by rw [clipsAt_isSome_eq_hasName, h]
  exact Option.not_isSome_iff_eq_none.mp (by simp [h1])

theorem clipsAtL_of_not_hasNameL {bs : BinList} {t : String} (h : hasNameL bs t = false) :
    clipsAtL bs t = none := by
  have h1 : (findInSubs bs t).isSome = false := by rw [findL_isSome_eq_hasNameL, h]
  have h2 : findInSubs bs t = none := Option.not_isSome_iff_eq_none.mp (by simp [h1])
  simp [clipsAtL, h2]

theorem clipsAtL_cons_some {b : Bin} {bs : BinList} {t : String} {l : List String}
    (h : clipsAt b t = some l) : clipsAtL (.cons b bs) t = some l := by
  simp only [clipsAt] at h
  cases hf : find_bin_by_name b t with
  | some r =>
      rw [hf] at h
      simp at h
      simp [clipsAtL, findInSubs, hf, h]
  | none => rw [hf] at h; simp at h

theorem clipsAtL_cons_none {b : Bin} {bs : BinList} {t : String}
    (h : clipsAt b t = none) : clipsAtL (.cons b bs) t = clipsAtL bs t := by
  have hf : find_bin_by_name b t = none := by
    cases hf : find_bin_by_name b t with
    | some r => rw [clipsAt, hf] at h; simp at h
    | none => rfl
  simp [clipsAtL, findInSubs, hf]

mutual
theorem clipsAt_updateBin_self : ∀ (b : Bin) (t : String) (f : List String → List String),
    clipsAt (updateBin b t f) t = (clipsAt b t).map f
  | .node n cs subs, t, f => by
      simp only [updateBin]
      by_cases h : n = t
      · simp [h, clipsAt_node]
      · simp [h, clipsAt_node, clipsAtL_updateSubs_self subs t f]
theorem clipsAtL_updateSubs_self : ∀ (bs : BinList) (t : String) (f : List String → List String),
    clipsAtL (updateSubs bs t f) t = (clipsAtL bs t).map f
  | .nil, _, _ => by simp [updateSubs, clipsAtL, findInSubs]
  | .cons b bs, t, f => by
      simp only [updateSubs]
      by_cases h : hasName b t
      · obtain ⟨l, hl⟩ := clipsAt_of_hasName h
        have hu : clipsAt (updateBin b t f) t = some (f l) := by
          rw [clipsAt_updateBin_self b t f, hl]; rfl
        rw [if_pos h, clipsAtL_cons_some hu, clipsAtL_cons_some hl]
        rfl
      · have hn : clipsAt b t = none := clipsAt_of_not_hasName (by simpa using h)
        rw [if_neg h, clipsAtL_cons_none hn, clipsAtL_cons_none hn,
          clipsAtL_updateSubs_self bs t f]
end

mutual
theorem clipsAt_updateBin_ne : ∀ (b : Bin) (t t' : String) (f : List String → List String),
    t' ≠ t → clipsAt (updateBin b t f) t' = clipsAt b t'
  | .node n cs subs, t, t', f => by
      intro hne
      simp only [updateBin]
      by_cases h : n = t
      · subst h
        rw [if_pos rfl]
        have hnt : ¬(n = t') := fun hh => hne hh.symm
        simp [clipsAt_node, hnt]
      · rw [if_neg h]
        by_cases h2 : n = t'
        · simp [clipsAt_node, h2]
        · simp [clipsAt_node, h2, clipsAtL_updateSubs_ne subs t t' f hne]
theorem clipsAtL_updateSubs_ne : ∀ (bs : BinList) (t t' : String) (f : List String → List String),
    t' ≠ t → clipsAtL (updateSubs bs t f) t' = clipsAtL bs t'
  | .nil, _, _, _ => fun _ => rfl
  | .cons b bs, t, t', f => by
      intro hne
      simp only [updateSubs]
      by_cases h : hasName b t
      · rw [if_pos h]
        have hb := clipsAt_updateBin_ne b t t' f hne
        cases hc : clipsAt b t' with
        | some l => rw [clipsAtL_cons_some (hb.trans hc), clipsAtL_cons_some hc]
        | none => rw [clipsAtL_cons_none (hb.trans hc), clipsAtL_cons_none hc]
      · rw [if_neg h]
        cases hc : clipsAt b t' with
        | some l => rw [clipsAtL_cons_some hc, clipsAtL_cons_some hc]
        | none =>
            rw [clipsAtL_cons_none hc, clipsAtL_cons_none hc,
              clipsAtL_updateSubs_ne bs t t' f hne]
end

mutual
theorem hasName_updateBin : ∀ (b : Bin) (t t' : String) (f : List String → List String),
    hasName (updateBin b t f) t' = hasName b t'
  | .node n cs subs, t, t', f => by
      simp only [updateBin]
      by_cases h : n = t
      · simp [h, hasName]
      · simp [h, hasName, hasNameL_updateSubs subs t t' f]
theorem hasNameL_updateSubs : ∀ (bs : BinList) (t t' : String) (f : List String → List String),
    hasNameL (updateSubs bs t f) t' = hasNameL bs t'
  | .nil, _, _, _ => rfl
  | .cons b bs, t, t', f => by
      simp only [updateSubs]
      by_cases h : hasName b t
      · simp [h, hasNameL, hasName_updateBin b t t' f]
      · simp [h, hasNameL, hasNameL_updateSubs bs t t' f]
end

theorem name_updateBin (b : Bin) (t : String) (f : List String → List String) :
    (updateBin b t f).name = b.name := by
  cases b with
  | node n cs subs =>
      simp only [updateBin]
      split <;> rfl

theorem clips_updateBin (b : Bin) (t : String) (f : List String → List String) :
    (updateBin b t f).clips = if b.name = t then f b.clips else b.clips := by
  cases b with
  | node n cs subs =>
      simp only [updateBin, Bin.name, Bin.clips]
      by_cases h : n = t
      · rw [if_pos h, if_pos h]
      · rw [if_neg h, if_neg h]

theorem findL_snoc : ∀ (bs : BinList) (x : Bin) (t : String),
    findInSubs (snocSubs bs x) t =
      (match findInSubs bs t with
       | some r => some r
       | none => find_bin_by_name x t)
  | .nil, x, t => by
      simp only [snocSubs, findInSubs]
      cases find_bin_by_name x t <;> rfl
  | .cons b bs, x, t => by
      simp only [snocSubs, findInSubs]
      cases find_bin_by_name b t with
      | some r => rfl
      | none => exact findL_snoc bs x t

theorem hasNameL_snoc : ∀ (bs : BinList) (x : Bin) (t : String),
    hasNameL (snocSubs bs x) t = (hasNameL bs t || hasName x t)
  | .nil, x, t => by simp [snocSubs, hasNameL]
  | .cons b bs, x, t => by
      simp [snocSubs, hasNameL, hasNameL_snoc bs x t, Bool.or_assoc]

theorem clipsAtL_snoc (bs : BinList) (x : Bin) (t : String) :
    clipsAtL (snocSubs bs x) t =
      (match clipsAtL bs t with
       | some l => some l
       | none => clipsAt x t) := by
  simp only [clipsAtL, clipsAt, findL_snoc]
  cases findInSubs bs t <;> rfl

theorem name_addUnderRoot (b : Bin) (m : String) : (addUnderRoot b m).name = b.name := by
  cases b with
  | node n cs subs => rfl

theorem hasName_addUnderRoot (b : Bin) (m t : String) :
    hasName (addUnderRoot b m) t = (hasName b t || (m == t)) := by
  cases b with
  | node n cs subs =>
      simp [addUnderRoot, hasName, hasNameL, hasNameL_snoc, Bool.or_assoc]

theorem clipsAt_addUnderRoot_of_hasName {b : Bin} {t : String} (m : String)
    (h : hasName b t = true) : clipsAt (addUnderRoot b m) t = clipsAt b t := by
  cases b with
  | node n cs subs =>
      simp only [addUnderRoot, clipsAt_node]
      by_cases hn : n = t
      · simp [hn]
      · rw [if_neg hn, if_neg hn, clipsAtL_snoc]
        have hsubs : hasNameL subs t = true := by
          simp only [hasName, Bool.or_eq_true, beq_iff_eq] at h
          rcases h with h | h
          · exact absurd h hn
          · exact h
        have h1 : (findInSubs subs t).isSome = true := by
          rw [findL_isSome_eq_hasNameL, hsubs]
        obtain ⟨r, hr⟩ := Option.isSome_iff_exists.mp h1
        simp [clipsAtL, hr]

theorem clipsAt_addUnderRoot_fresh {b : Bin} {t : String} (h : hasName b t = false) :
    clipsAt (addUnderRoot b t) t = some [] := by
  cases b with
  | node n cs subs =>
      simp only [hasName, Bool.or_eq_false_iff, beq_eq_false_iff_ne] at h
      simp only [addUnderRoot, clipsAt_node]
      rw [if_neg h.1, clipsAtL_snoc, clipsAtL_of_not_hasNameL h.2]
      simp [clipsAt_node]

theorem name_setRootClips (b : Bin) (l : List String) : (setRootClips b l).name = b.name := by
  cases b with
  | node n cs subs => rfl

theorem clips_setRootClips (b : Bin) (l : List String) : (setRootClips b l).clips = l := by
  cases b with
  | node n cs subs => rfl

theorem hasName_setRootClips (b : Bin) (l : List String) (t : String) :
    hasName (setRootClips b l) t = hasName b t := by
  cases b with
  | node n cs subs => rfl

theorem clipsAt_setRootClips_ne {b : Bin} {t : String} (l : List String)
    (h : t ≠ b.name) : clipsAt (setRootClips b l) t = clipsAt b t := by
  cases b with
  | node n cs subs =>
      simp only [Bin.name] at h
      have hn : ¬(n = t) := fun hh => h hh.symm
      simp only [setRootClips, clipsAt_node]
      rw [if_neg hn, if_neg hn]

theorem clipsAt_root_self (b : Bin) : clipsAt b b.name = some b.clips := by
  cases b with
  | node n cs subs => simp [Bin.name, Bin.clips, clipsAt_node]

theorem mem_loadVideoKeyed {entries : List DirEntry} {k : Nat} {s : String} :
    (k, s) ∈ loadVideoKeyed entries ↔
      ∃ e, e ∈ entries ∧ e.isFile = true ∧ isVideoName e.name = true ∧
        maxDigitRun e.name = some k ∧ e.name = s := by
  simp only [loadVideoKeyed, List.mem_filterMap]
  constructor
  · rintro ⟨e, he, hf⟩
    by_cases h1 : (e.isFile && isVideoName e.name) = true
    · rw [if_pos h1] at hf
      cases hm : maxDigitRun e.name with
      | none => rw [hm] at hf; simp at hf
      | some j =>
          rw [hm] at hf
          simp only [Option.some_inj, Prod.mk.injEq] at hf
          obtain ⟨h2, h3⟩ : e.isFile = true ∧ isVideoName e.name = true := by simpa using h1
          exact ⟨e, he, h2, h3, by rw [hm, hf.1], hf.2⟩
    · rw [if_neg h1] at hf; simp at hf
  · rintro ⟨e, he, h2, h3, hm, hn⟩
    refine ⟨e, he, ?_⟩
    have h1 : (e.isFile && isVideoName e.name) = true := by simp [h2, h3]
    rw [if_pos h1, hm, hn]

theorem key_eq_maxKeyOf {entries : List DirEntry} {x : Nat × String}
    (h : x ∈ loadVideoKeyed entries) : x.1 = maxKeyOf x.2 := by
  obtain ⟨k, s⟩ := x
  obtain ⟨e, _, _, _, hm, hn⟩ := mem_loadVideoKeyed.mp h
  simp only [maxKeyOf]
  rw [← hn, hm]
  rfl

theorem map_snd_loadVideoKeyed (entries : List DirEntry) :
    (loadVideoKeyed entries).map (fun x => x.2) =
      entries.filterMap (fun e =>
        if e.isFile && isVideoName e.name && (maxDigitRun e.name).isSome then some e.name
        else none) := by
  simp only [loadVideoKeyed, List.map_filterMap]
  congr 1
  funext e
  by_cases h1 : (e.isFile && isVideoName e.name) = true
  · rw [if_pos h1]
    cases hm : maxDigitRun e.name with
    | none => simp [h1, hm]
    | some j => simp [h1, hm]
  · rw [if_neg h1]
    have h2 : (e.isFile && isVideoName e.name && (maxDigitRun e.name).isSome) = false := by
      have h3 : (e.isFile && isVideoName e.name) = false := Bool.eq_false_iff.mpr h1
      rw [h3, Bool.false_and]
    simp [h2]

theorem filter_key_orderedInsert (k : Nat) (x : Nat × String) (l : List (Nat × String)) :
    (List.orderedInsert keyLe x l).filter (fun y => y.1 == k) =
      if x.1 == k then x :: l.filter (fun y => y.1 == k)
      else l.filter (fun y => y.1 == k) := by
  induction l with
  | nil => simp [List.orderedInsert, List.filter_cons]
  | cons b bs ih =>
      simp only [List.orderedInsert]
      by_cases h : keyLe x b
      · rw [if_pos h]
        simp [List.filter_cons]
      · rw [if_neg h]
        have hlt : b.1 < x.1 := Nat.lt_of_not_le (by simpa [keyLe] using h)
        by_cases hxk : (x.1 == k) = true
        · have hxe : x.1 = k := by simpa using hxk
          have hbk : (b.1 == k) = false := by
            rw [beq_eq_false_iff_ne]
            omega
          simp [List.filter_cons, hbk, ih, hxk]
        · have hxf : (x.1 == k) = false := Bool.eq_false_iff.mpr hxk
          simp [List.filter_cons, ih, hxf]

theorem filter_key_insertionSort (k : Nat) (l : List (Nat × String)) :
    (l.insertionSort keyLe).filter (fun y => y.1 == k) = l.filter (fun y => y.1 == k) := by
  induction l with
  | nil => rfl
  | cons b bs ih =>
      simp only [List.insertionSort]
      rw [filter_key_orderedInsert]
      by_cases h : (b.1 == k) = true
      · simp [List.filter_cons, ih, h]
      · simp [List.filter_cons, ih, Bool.eq_false_iff.mpr h]

/-- C4, counterexample to the claim's example: on the listing
clip_10.mp4, clip_2.mp4, clip_1.mp4 the code does not return the
numerically ordered [clip_1.mp4, clip_2.mp4, clip_10.mp4].  The sort key
is the maximum digit run of the whole filename, and the extension ".mp4"
contributes a digit run 4, so clip_1.mp4 and clip_2.mp4 both get key 4
(not 1 and 2) while clip_10.mp4 gets key 10; the stable sort therefore
keeps clip_2.mp4 before clip_1.mp4. -/
theorem C4_counterexample :
    find_and_sort_load_videos
        [⟨"clip_10.mp4", true⟩, ⟨"clip_2.mp4", true⟩, ⟨"clip_1.mp4", true⟩] ≠
      ["clip_1.mp4", "clip_2.mp4", "clip_10.mp4"] ∧
    maxDigitRun "clip_1.mp4" = some 4 ∧
    maxDigitRun "clip_2.mp4" = some 4 ∧
    maxDigitRun "clip_10.mp4" = some 10 := by
  refine ⟨by decide, by decide, by decide, by decide⟩

/-- C4 (amended): find_and_sort_load_videos returns exactly the immediate
files of the root folder whose lowercased name has a recognized video
extension and whose name contains at least one digit run, ordered
ascending by the maximum integer among all digit runs of the filename
(extension included), ties kept in discovery order by a stable sort.  On
the example listing clip_10.mp4, clip_2.mp4, clip_1.mp4 the keys are
10, 4, 4, so the result is [clip_2.mp4, clip_1.mp4, clip_10.mp4] (the two
key-4 names in discovery order, then clip_10.mp4). -/
theorem C4_load_video_order :
    (∀ entries : List DirEntry,
      List.Pairwise (fun a b : String => maxKeyOf a ≤ maxKeyOf b)
        (find_and_sort_load_videos entries) ∧
      (find_and_sort_load_videos entries).Perm
        (entries.filterMap (fun e =>
          if e.isFile && isVideoName e.name && (maxDigitRun e.name).isSome then some e.name
          else none)) ∧
      (∀ k : Nat,
        (find_and_sort_load_videos entries).filter (fun s => maxKeyOf s == k) =
          (entries.filterMap (fun e =>
            if e.isFile && isVideoName e.name && (maxDigitRun e.name).isSome then some e.name
            else none)).filter (fun s => maxKeyOf s == k))) ∧
    find_and_sort_load_videos
        [⟨"clip_10.mp4", true⟩, ⟨"clip_2.mp4", true⟩, ⟨"clip_1.mp4", true⟩] =
      ["clip_2.mp4", "clip_1.mp4", "clip_10.mp4"] := by
  constructor
  · intro entries
    have hsort : List.Sorted keyLe ((loadVideoKeyed entries).insertionSort keyLe) :=
      List.sorted_insertionSort keyLe (loadVideoKeyed entries)
    have hperm0 : ((loadVideoKeyed entries).insertionSort keyLe).Perm (loadVideoKeyed entries) :=
      List.perm_insertionSort keyLe (loadVideoKeyed entries)
    refine ⟨?_, ?_, ?_⟩
    · rw [find_and_sort_load_videos, List.pairwise_map]
      refine List.Pairwise.imp_of_mem ?_ hsort
      intro a b ha hb hr
      rw [← key_eq_maxKeyOf (hperm0.subset ha), ← key_eq_maxKeyOf (hperm0.subset hb)]
      exact hr
    · rw [find_and_sort_load_videos, ← map_snd_loadVideoKeyed]
      exact hperm0.map _
    · intro k
      rw [find_and_sort_load_videos, ← map_snd_loadVideoKeyed,
        List.filter_map, List.filter_map]
      congr 1
      have e1 : ((loadVideoKeyed entries).insertionSort keyLe).filter
            ((fun s => maxKeyOf s == k) ∘ (fun x : Nat × String => x.2)) =
          ((loadVideoKeyed entries).insertionSort keyLe).filter (fun y => y.1 == k) :=
        List.filter_congr (fun a ha => by
          simp only [Function.comp]
          rw [← key_eq_maxKeyOf (hperm0.subset ha)])
      have e2 : (loadVideoKeyed entries).filter (fun y => y.1 == k) =
          (loadVideoKeyed entries).filter
            ((fun s => maxKeyOf s == k) ∘ (fun x : Nat × String => x.2)) :=
        List.filter_congr (fun a ha => by
          simp only [Function.comp]
          rw [← key_eq_maxKeyOf ha])
      rw [e1, filter_key_insertionSort, e2]
  · decide

/-- C5: get_missing_files is exactly the set difference between the
immediate on-disk filenames of the folder whose lowercased name ends with
.mp4, .mov, .mxf or .avi and the clip names of the bin: a name is in the
result iff some listed regular file bears it and it has a video extension
and it is not among the bin's clips.  On disk files a.mp4, b.mov, c.txt
with bin clips a.mp4 the result is exactly b.mov. -/
theorem C5_get_missing_files :
    (∀ s : String, isVideoName s = true ↔
      ∃ ext ∈ videoExtensions, ext.data <:+ (lowerStr s).data) ∧
    (∀ (bc : List String) (es : List DirEntry) (x : String),
      x ∈ get_missing_files bc es ↔
        ((∃ e, e ∈ es ∧ e.isFile = true ∧ isVideoName e.name = true ∧ e.name = x) ∧ x ∉ bc)) ∧
    get_missing_files ["a.mp4"] [⟨"a.mp4", true⟩, ⟨"b.mov", true⟩, ⟨"c.txt", true⟩] =
      ["b.mov"] := by
  refine ⟨?_, ?_, by decide⟩
  · intro s
    simp [isVideoName, List.any_eq_true, List.isSuffixOf_iff_suffix]
  · intro bc es x
    rw [mem_get_missing_files, mem_videoFilesOf]

/-- C6: find_bin_by_name tests the given bin itself first and returns it
at once when its own name equals the target (without descending, even for
the supplied root); otherwise it recurses into the sub-bins in listing
order, returning the first non-none result; and it returns none exactly
when no bin of the whole subtree, start included, bears the target name
(names compared by exact, case-sensitive string equality). -/
theorem C6_find_bin_by_name :
    (∀ (b : Bin) (t : String), b.name = t → find_bin_by_name b t = some b) ∧
    (∀ (b : Bin) (t : String), find_bin_by_name b t = none ↔ t ∉ allNames b) ∧
    (∀ (n : String) (cs : List String) (subs : BinList) (t : String),
      n ≠ t → find_bin_by_name (.node n cs subs) t = findInSubs subs t) ∧
    (∀ (b : Bin) (bs : BinList) (t : String),
      findInSubs (.cons b bs) t =
        (match find_bin_by_name b t with
         | some r => some r
         | none => findInSubs bs t)) := by
  refine ⟨?_, ?_, ?_, ?_⟩
  · intro b t h
    cases b with
    | node n cs subs =>
        simp only [Bin.name] at h
        simp [find_bin_by_name, h]
  · intro b t
    exact find_eq_none_iff
  · intro n cs subs t h
    simp [find_bin_by_name, h]
  · intro b bs t
    rfl

/-- Witness for C6 at a concrete tree: the root bin is returned untouched
when its own name is the target. -/
theorem C6_witness :
    (Bin.node "Master" [] (.cons (.node "A" [] .nil) .nil)).name = "Master" ∧
    find_bin_by_name (Bin.node "Master" [] (.cons (.node "A" [] .nil) .nil)) "Master" =
      some (Bin.node "Master" [] (.cons (.node "A" [] .nil) .nil)) :=
  ⟨rfl, C6_find_bin_by_name.1 (Bin.node "Master" [] (.cons (.node "A" [] .nil) .nil)) "Master" rfl⟩

theorem dateShapeAt_length {l : List Char} (h : dateShapeAt l = true) : 10 ≤ l.length := by
  simp only [dateShapeAt, Bool.and_eq_true, decide_eq_true_eq] at h
  exact h.1.1.1.1.1.1.1.1.1.1

theorem firstDateAux_some {l : List Char} {dd : List Char} (h : firstDateAux l = some dd) :
    ∃ p q, l = p ++ q ∧ dateShapeAt q = true ∧ dd = q.take 10 ∧
      ∀ p' q', l = p' ++ q' → p'.length < p.length → dateShapeAt q' = false := by
  induction l with
  | nil => simp [firstDateAux] at h
  | cons c rest ih =>
      rw [firstDateAux] at h
      by_cases hd : dateShapeAt (c :: rest) = true
      · rw [if_pos hd] at h
        refine ⟨[], c :: rest, rfl, hd, by simpa using h.symm, ?_⟩
        intro p' q' _ hlt
        exact absurd hlt (Nat.not_lt_zero _)
      · rw [if_neg hd] at h
        obtain ⟨p, q, heq, hq, hdd, hmin⟩ := ih h
        refine ⟨c :: p, q, by rw [List.cons_append, heq], hq, hdd, ?_⟩
        intro p' q' hsplit hlt
        cases p' with
        | nil =>
            simp only [List.nil_append] at hsplit
            rw [← hsplit]
            exact Bool.eq_false_iff.mpr hd
        | cons c' p'' =>
            simp only [List.cons_append, List.cons.injEq] at hsplit
            simp only [List.length_cons] at hlt
            exact hmin p'' q' hsplit.2 (Nat.lt_of_succ_lt_succ hlt)

theorem firstDateAux_none {l : List Char} (h : firstDateAux l = none) :
    ∀ p q, l = p ++ q → dateShapeAt q = false := by
  induction l with
  | nil =>
      intro p q hpq
      have hq : q = [] := (List.append_eq_nil.mp hpq.symm).2
      rw [hq]
      rfl
  | cons c rest ih =>
      rw [firstDateAux] at h
      by_cases hd : dateShapeAt (c :: rest) = true
      · rw [if_pos hd] at h
        exact absurd h (by simp)
      · rw [if_neg hd] at h
        intro p q hpq
        cases p with
        | nil =>
            simp only [List.nil_append] at hpq
            rw [← hpq]
            exact Bool.eq_false_iff.mpr hd
        | cons c' p' =>
            simp only [List.cons_append, List.cons.injEq] at hpq
            exact ih h p' q hpq.2

/-- C8: when the root folder's base name contains a ####-##-## shaped
substring, derive_date_pref returns verbatim the leftmost such substring,
with no validation that the digits form a real calendar date (witness the
9999-99-99 example); otherwise it returns the current-date string. -/
theorem C8_derive_date_pref :
    (∀ (s today d : String), firstDateSub s = some d →
      derive_date_pref s today = d ∧ IsFirstDateMatch s d) ∧
    (∀ (s today : String), firstDateSub s = none →
      derive_date_pref s today = today ∧
      ∀ p q, s.data = p ++ q → dateShapeAt q = false) ∧
    derive_date_pref "2024-11-22 ShootDay" "T" = "2024-11-22" ∧
    derive_date_pref "9999-99-99 nonsense" "T" = "9999-99-99" ∧
    derive_date_pref "NoDateHere" "2025-10-12" = "2025-10-12" := by
  refine ⟨?_, ?_, by decide, by decide, by decide⟩
  · intro s today d h
    obtain ⟨dd, hdd, hmk⟩ : ∃ dd, firstDateAux s.data = some dd ∧ String.mk dd = d := by
      simp only [firstDateSub, Option.map_eq_some'] at h
      exact h
    have hdata : d.data = dd := by rw [← hmk]
    constructor
    · simp [derive_date_pref, h]
    · obtain ⟨p, q, heq, hq, htake, hmin⟩ := firstDateAux_some hdd
      have hlen : 10 ≤ q.length := dateShapeAt_length hq
      refine ⟨?_, p, q.drop 10, ?_, ?_, ?_⟩
      · rw [hdata, htake, List.length_take]
        omega
      · rw [hdata, htake, List.append_assoc, List.take_append_drop]
        exact heq
      · rw [hdata, htake, List.take_append_drop]
        exact hq
      · intro p' q' hsplit hlt
        exact hmin p' q' (heq ▸ hsplit) hlt
  · intro s today h
    have haux : firstDateAux s.data = none := by
      simp only [firstDateSub, Option.map_eq_none'] at h
      exact h
    exact ⟨by simp [derive_date_pref, h], firstDateAux_none haux⟩

/-- Witness for C8 at a concrete name with surrounding text: the leftmost
date-shaped substring of x2024-11-22 ShootDay is returned verbatim. -/
theorem C8_witness :
    firstDateSub "x2024-11-22 ShootDay" = some "2024-11-22" ∧
    (derive_date_pref "x2024-11-22 ShootDay" "T" = "2024-11-22" ∧
      IsFirstDateMatch "x2024-11-22 ShootDay" "2024-11-22") :=
  ⟨by decide, C8_derive_date_pref.1 "x2024-11-22 ShootDay" "T" "2024-11-22" (by decide)⟩
/-- C9: a composite bin name ending in the token L0 makes load-number
extraction return the integer 0, and the main loop then skips that
subfolder exactly as if no load number were present (Python's truthiness
test does not distinguish 0 from None): the iteration leaves the run state
completely unchanged, so no bin is looked up or created and nothing is
imported for it. -/
theorem C9_load_zero_skipped :
    (∀ p : String, get_load_number_from_bin (p ++ "L0") = some 0) ∧
    (∀ (d : DiskModel) (datePref : String) (loadVideos : List String) (env : Env)
      (st : RunState) (e : DirEntry),
      loadNumOf datePref e = some 0 →
      runStep d datePref loadVideos env st e = st) := by
  constructor
  · intro p
    have h2 : (p ++ "L0").data.reverse = '0' :: 'L' :: p.data.reverse := by
      rw [String.data_append, List.reverse_append]
      rfl
    unfold get_load_number_from_bin
    rw [h2]
    rfl
  · intro d dp lv env st e h
    simp only [runStep, h]

/-- Witness for C9 on a concrete subfolder A - L0: extraction yields 0 and
the loop iteration is the identity on the run state. -/
theorem C9_witness :
    loadNumOf "2024-11-22" ⟨"A - L0", false⟩ = some 0 ∧
    runStep ⟨"r", [], []⟩ "2024-11-22" [] ⟨true, true⟩
        ⟨.node "Master" [] .nil, [], [], 0, []⟩ ⟨"A - L0", false⟩ =
      ⟨.node "Master" [] .nil, [], [], 0, []⟩ :=
  ⟨by decide,
   C9_load_zero_skipped.2 ⟨"r", [], []⟩ "2024-11-22" [] ⟨true, true⟩
     ⟨.node "Master" [] .nil, [], [], 0, []⟩ ⟨"A - L0", false⟩ (by decide)⟩
/-- C2: import_load_video resolves its outcomes in strict priority order.
With no candidates it reports failure with no effect and no import call;
with load_number beyond the sequence it reports failure with no effect and
no import call; when the 1-indexed candidate's name is already among the
target bin's clips it reports success without issuing any import call;
otherwise it issues exactly one ImportMedia call for exactly that one
file and, when the host accepted the import, succeeds exactly when a
root-bin clip with the matching name is found, in which case that clip is
moved into the target bin (appended to its clips, removed from the root
bin); when no matching clip is found it reports failure silently, and
when the host rejected the import it reports failure with no effect. -/
theorem C2_import_load_video :
    ∀ (lib : Bin) (bn : String) (n : Nat) (lv : List String) (ok : Bool) (ra : List String),
      (lv = [] → import_load_video lib bn n lv ok ra = (lib, false, [])) ∧
      (lv.length < n → import_load_video lib bn n lv ok ra = (lib, false, [])) ∧
      (1 ≤ n → n ≤ lv.length → lv.getD (n - 1) "" ∈ binClipsAt lib bn →
        import_load_video lib bn n lv ok ra = (lib, true, [])) ∧
      (1 ≤ n → n ≤ lv.length → lv.getD (n - 1) "" ∉ binClipsAt lib bn → ok = false →
        import_load_video lib bn n lv ok ra = (lib, false, [[lv.getD (n - 1) ""]])) ∧
      (1 ≤ n → n ≤ lv.length → lv.getD (n - 1) "" ∉ binClipsAt lib bn → ok = true →
        ((import_load_video lib bn n lv ok ra).2.2 = [[lv.getD (n - 1) ""]] ∧
         ((import_load_video lib bn n lv ok ra).2.1 = true ↔ lv.getD (n - 1) "" ∈ ra) ∧
         (lv.getD (n - 1) "" ∉ ra →
           import_load_video lib bn n lv ok ra =
             (setRootClips lib ra, false, [[lv.getD (n - 1) ""]])) ∧
         (lv.getD (n - 1) "" ∈ ra → bn ≠ lib.name → ∀ cl, clipsAt lib bn = some cl →
           binClipsAt (import_load_video lib bn n lv ok ra).1 bn = cl ++ [lv.getD (n - 1) ""] ∧
           (import_load_video lib bn n lv ok ra).1.clips = ra.erase (lv.getD (n - 1) "") ∧
           (import_load_video lib bn n lv ok ra).1.name = lib.name))) := by
  intro lib bn n lv ok ra
  refine ⟨?_, ?_, ?_, ?_, ?_⟩
  · intro h
    subst h
    simp [import_load_video]
  · intro h
    by_cases he : lv = []
    · simp [import_load_video, he]
    · have hne : lv.isEmpty = false := by simp [List.isEmpty_iff, he]
      simp [import_load_video, hne, h]
  · intro h1 h2 h3
    have he : lv ≠ [] := by
      intro hh
      rw [hh] at h2
      simp at h2
      omega
    have hne : lv.isEmpty = false := by simp [List.isEmpty_iff, he]
    have hlt : ¬(lv.length < n) := Nat.not_lt.mpr h2
    simp only [List.getD_eq_getElem?_getD] at h3
    simp [import_load_video, hne, hlt, h3]
  · intro h1 h2 h3 hok
    have he : lv ≠ [] := by
      intro hh
      rw [hh] at h2
      simp at h2
      omega
    have hne : lv.isEmpty = false := by simp [List.isEmpty_iff, he]
    have hlt : ¬(lv.length < n) := Nat.not_lt.mpr h2
    subst hok
    simp only [List.getD_eq_getElem?_getD] at h3 ⊢
    simp [import_load_video, hne, hlt, h3]
  · intro h1 h2 h3 hok
    have he : lv ≠ [] := by
      intro hh
      rw [hh] at h2
      simp at h2
      omega
    have hne : lv.isEmpty = false := by simp [List.isEmpty_iff, he]
    have hlt : ¬(lv.length < n) := Nat.not_lt.mpr h2
    subst hok
    simp only [List.getD_eq_getElem?_getD] at h3 ⊢
    by_cases hmem : lv[n - 1]?.getD "" ∈ ra
    · refine ⟨?_, ?_, fun hc => absurd hmem hc, ?_⟩
      · simp [import_load_video, hne, hlt, h3, hmem]
      · simp [import_load_video, hne, hlt, h3, hmem]
      · intro _ hroot cl hcl
        have hres : (import_load_video lib bn n lv true ra).1 =
            updateBin (setRootClips lib (ra.erase (lv[n - 1]?.getD ""))) bn
              (fun cs => cs ++ [lv[n - 1]?.getD ""]) := by
          simp [import_load_video, hne, hlt, h3, hmem]
        refine ⟨?_, ?_, ?_⟩
        · rw [hres]
          simp only [binClipsAt, clipsAt_updateBin_self,
            clipsAt_setRootClips_ne _ hroot, hcl]
          rfl
        · rw [hres, clips_updateBin, name_setRootClips, clips_setRootClips,
            if_neg (fun hh => hroot hh.symm)]
        · rw [hres, name_updateBin, name_setRootClips]
    · refine ⟨?_, ?_, fun _ => ?_, fun hc => absurd hc hmem⟩
      · simp [import_load_video, hne, hlt, h3, hmem]
      · simp [import_load_video, hne, hlt, h3, hmem]
      · simp [import_load_video, hne, hlt, h3, hmem]

/-- Witness for C2 at a concrete instance of the import-and-move arm: the
target bin B starts empty, the root bin already holds a clip with the
load video's name, the host accepts the import, and the first matching
root clip is moved into B. -/
theorem C2_witness :
    ("v_1.mp4" ∉ binClipsAt
        (Bin.node "Master" ["v_1.mp4"] (.cons (.node "B" [] .nil) .nil)) "B") ∧
    clipsAt (Bin.node "Master" ["v_1.mp4"] (.cons (.node "B" [] .nil) .nil)) "B" = some [] ∧
    binClipsAt (import_load_video
        (Bin.node "Master" ["v_1.mp4"] (.cons (.node "B" [] .nil) .nil))
        "B" 1 ["v_1.mp4"] true ["v_1.mp4", "v_1.mp4"]).1 "B" = [] ++ ["v_1.mp4"] ∧
    (import_load_video (Bin.node "Master" ["v_1.mp4"] (.cons (.node "B" [] .nil) .nil))
        "B" 1 ["v_1.mp4"] true ["v_1.mp4", "v_1.mp4"]).1.clips =
      (["v_1.mp4", "v_1.mp4"] : List String).erase "v_1.mp4" ∧
    (import_load_video (Bin.node "Master" ["v_1.mp4"] (.cons (.node "B" [] .nil) .nil))
        "B" 1 ["v_1.mp4"] true ["v_1.mp4", "v_1.mp4"]).1.name = "Master" := by
  have h := (C2_import_load_video
      (Bin.node "Master" ["v_1.mp4"] (.cons (.node "B" [] .nil) .nil))
      "B" 1 ["v_1.mp4"] true ["v_1.mp4", "v_1.mp4"]).2.2.2.2
    (by decide) (by decide) (by decide) rfl
  have h2 := h.2.2.2 (by decide) (by decide) [] (by decide)
  exact ⟨by decide, by decide, h2.1, h2.2.1, h2.2.2⟩

/-- C3: import_vids with nothing missing returns false with no effect and
no import call; when the single bulk import call is rejected by the host
it returns false, moves nothing and leaves the library untouched; when the
bulk import succeeds it returns true unconditionally (individual moves
cannot fail in a way the source observes), issues exactly one ImportMedia
call carrying exactly the missing files, and moves every root-bin clip
whose name is in the missing set into the target bin. -/
theorem C3_import_vids :
    ∀ (lib : Bin) (bn : String) (es : List DirEntry) (ok : Bool) (ra : List String),
      (get_missing_files (binClipsAt lib bn) es = [] →
        import_vids lib bn es ok ra = (lib, false, [])) ∧
      (get_missing_files (binClipsAt lib bn) es ≠ [] → ok = false →
        import_vids lib bn es ok ra = (lib, false, [get_missing_files (binClipsAt lib bn) es])) ∧
      (get_missing_files (binClipsAt lib bn) es ≠ [] → ok = true →
        ((import_vids lib bn es ok ra).2.1 = true ∧
         (import_vids lib bn es ok ra).2.2 = [get_missing_files (binClipsAt lib bn) es] ∧
         (import_vids lib bn es ok ra).1.name = lib.name ∧
         (bn ≠ lib.name →
           (import_vids lib bn es ok ra).1.clips =
             ra.filter (fun c => decide (c ∉ get_missing_files (binClipsAt lib bn) es)) ∧
           ∀ cl, clipsAt lib bn = some cl →
             binClipsAt (import_vids lib bn es ok ra).1 bn =
               cl ++ ra.filter (fun c => decide (c ∈ get_missing_files (binClipsAt lib bn) es))))) := by
  intro lib bn es ok ra
  refine ⟨?_, ?_, ?_⟩
  · intro h
    simp [import_vids, h]
  · intro h hok
    have hne : (get_missing_files (binClipsAt lib bn) es).isEmpty = false := by
      simp [List.isEmpty_iff, h]
    subst hok
    simp [import_vids, hne]
  · intro h hok
    have hne : (get_missing_files (binClipsAt lib bn) es).isEmpty = false := by
      simp [List.isEmpty_iff, h]
    subst hok
    have hres : import_vids lib bn es true ra =
        (updateBin (setRootClips lib
            (ra.filter (fun c => decide (c ∉ get_missing_files (binClipsAt lib bn) es)))) bn
          (fun cs => cs ++ ra.filter (fun c => decide (c ∈ get_missing_files (binClipsAt lib bn) es))),
         true, [get_missing_files (binClipsAt lib bn) es]) := by
      simp [import_vids, hne]
    refine ⟨by rw [hres], by rw [hres], ?_, ?_⟩
    · rw [hres, name_updateBin, name_setRootClips]
    · intro hroot
      constructor
      · rw [hres, clips_updateBin, name_setRootClips, clips_setRootClips]
        rw [if_neg (fun hh => hroot hh.symm)]
      · intro cl hcl
        rw [hres]
        simp only [binClipsAt, clipsAt_updateBin_self,
          clipsAt_setRootClips_ne _ (fun hh => hroot hh), hcl]
        rfl

/-- Witness for C3 at a concrete instance of the successful bulk-import
arm: bin B already holds a.mp4, the folder also contains b.mov, so the
single import call carries exactly b.mov and the matching root clip is
moved into B. -/
theorem C3_witness :
    get_missing_files (binClipsAt
        (Bin.node "Master" ["old.mp4"] (.cons (.node "B" ["a.mp4"] .nil) .nil)) "B")
      [⟨"a.mp4", true⟩, ⟨"b.mov", true⟩] = ["b.mov"] ∧
    (import_vids (Bin.node "Master" ["old.mp4"] (.cons (.node "B" ["a.mp4"] .nil) .nil))
        "B" [⟨"a.mp4", true⟩, ⟨"b.mov", true⟩] true ["old.mp4", "b.mov"]).2.1 = true ∧
    binClipsAt (import_vids
        (Bin.node "Master" ["old.mp4"] (.cons (.node "B" ["a.mp4"] .nil) .nil))
        "B" [⟨"a.mp4", true⟩, ⟨"b.mov", true⟩] true ["old.mp4", "b.mov"]).1 "B" =
      ["a.mp4"] ++ (["old.mp4", "b.mov"] : List String).filter
        (fun c => decide (c ∈ get_missing_files (binClipsAt
          (Bin.node "Master" ["old.mp4"] (.cons (.node "B" ["a.mp4"] .nil) .nil)) "B")
          [⟨"a.mp4", true⟩, ⟨"b.mov", true⟩])) := by
  have h := (C3_import_vids
      (Bin.node "Master" ["old.mp4"] (.cons (.node "B" ["a.mp4"] .nil) .nil))
      "B" [⟨"a.mp4", true⟩, ⟨"b.mov", true⟩] true ["old.mp4", "b.mov"]).2.2
    (by decide) rfl
  exact ⟨by decide, h.1, (h.2.2.2 (by decide)).2 ["a.mp4"] (by decide)⟩
theorem binClipsAt_of_find {b r : Bin} {t : String}
    (hf : find_bin_by_name b t = some r) : binClipsAt b t = r.clips := by
  simp [binClipsAt, clipsAt, hf]

theorem iv_flag (lib : Bin) (bn : String) (es : List DirEntry) (ok : Bool) (ra : List String) :
    (import_vids lib bn es ok ra).2.1 =
      (!(get_missing_files (binClipsAt lib bn) es).isEmpty && ok) := by
  cases hemp : (get_missing_files (binClipsAt lib bn) es).isEmpty
  · cases ok
    · simp [import_vids, hemp]
    · simp [import_vids, hemp]
  · simp [import_vids, hemp]

theorem runProcess_fcTrace (d : DiskModel) (dp : String) (lv : List String) (env : Env)
    (st : RunState) (e : DirEntry) (n : Nat) :
    (runProcess d dp lv env st e n).fcTrace = st.fcTrace := by
  cases hf : find_bin_by_name st.lib (binNameOf dp e) with
  | some b => simp [runProcess, hf]
  | none =>
      by_cases hc : env.createOk = true
      · simp [runProcess, hf, hc]
      · simp [runProcess, hf, hc]

theorem runStep_fcTrace (d : DiskModel) (dp : String) (lv : List String) (env : Env)
    (st : RunState) (e : DirEntry) :
    (runStep d dp lv env st e).fcTrace =
      st.fcTrace ++ (if 1 ≤ (loadNumOf dp e).getD 0 then [binNameOf dp e] else []) := by
  cases hn : loadNumOf dp e with
  | none => simp [runStep, hn]
  | some m =>
      cases m with
      | zero => simp [runStep, hn]
      | succ k => simp [runStep, hn, runProcess_fcTrace]

theorem fcTrace_foldl (d : DiskModel) (dp : String) (lv : List String) (env : Env) :
    ∀ (l : List DirEntry) (st : RunState),
    (l.foldl (runStep d dp lv env) st).fcTrace =
      st.fcTrace ++ l.filterMap (fun e =>
        if 1 ≤ (loadNumOf dp e).getD 0 then some (binNameOf dp e) else none)
  | [], st => by simp
  | e :: l, st => by
      simp only [List.foldl_cons, List.filterMap_cons]
      rw [fcTrace_foldl d dp lv env l (runStep d dp lv env st e), runStep_fcTrace]
      by_cases h : 1 ≤ (loadNumOf dp e).getD 0
      · simp [h]
      · simp [h]

/-- C1, counterexample: a subfolder whose composite bin name carries no
load number is omitted from find-or-create processing altogether.  With
one subfolder NoLoad the run performs no find-or-create at all (and
returns an empty result), while the claim promises one target bin per
subfolder with none omitted. -/
theorem C1_counterexample :
    (DiskModel.mk "2024-11-22 Shoot" [⟨"NoLoad", false⟩]
        [("NoLoad", [⟨"a.mp4", true⟩])]).entries.filter (fun e => !e.isFile) =
      [⟨"NoLoad", false⟩] ∧
    (create_media_bins
        ⟨"2024-11-22 Shoot", [⟨"NoLoad", false⟩], [("NoLoad", [⟨"a.mp4", true⟩])]⟩
        "2025-01-01" (.node "Master" [] .nil) ⟨true, true⟩).fcTrace = [] ∧
    (create_media_bins
        ⟨"2024-11-22 Shoot", [⟨"NoLoad", false⟩], [("NoLoad", [⟨"a.mp4", true⟩])]⟩
        "2025-01-01" (.node "Master" [] .nil) ⟨true, true⟩).created = [] ∧
    (create_media_bins
        ⟨"2024-11-22 Shoot", [⟨"NoLoad", false⟩], [("NoLoad", [⟨"a.mp4", true⟩])]⟩
        "2025-01-01" (.node "Master" [] .nil) ⟨true, true⟩).updated = [] ∧
    (create_media_bins
        ⟨"2024-11-22 Shoot", [⟨"NoLoad", false⟩], [("NoLoad", [⟨"a.mp4", true⟩])]⟩
        "2025-01-01" (.node "Master" [] .nil) ⟨true, true⟩).importCount = 0 := by
  exact ⟨rfl, rfl, rfl, rfl, rfl⟩

/-- C1 (amended): every subfolder's composite bin name is
date_prefix - cleaned label, and the bin names submitted to find-or-create
are exactly those of the subfolders whose composite name carries a
positive load number, one per such subfolder, in listing order;
subfolders whose composite name has no trailing L-number token (or whose
load number is 0) are skipped before the find-or-create stage. -/
theorem C1_find_or_create_coverage :
    (∀ (dp : String) (e : DirEntry),
      binNameOf dp e = dp ++ " - " ++ clean_folder_name e.name) ∧
    (∀ (d : DiskModel) (today : String) (lib : Bin) (env : Env),
      (create_media_bins d today lib env).fcTrace =
        (d.entries.filter (fun e => !e.isFile)).filterMap (fun e =>
          if 1 ≤ (loadNumOf (derive_date_pref d.rootName today) e).getD 0 then
            some (binNameOf (derive_date_pref d.rootName today) e)
          else none)) := by
  refine ⟨fun dp e => rfl, ?_⟩
  intro d today lib env
  simp only [create_media_bins]
  by_cases hs : (d.entries.filter (fun e => !e.isFile)).isEmpty = true
  · have h0 : d.entries.filter (fun e => !e.isFile) = [] := by
      simpa [List.isEmpty_iff] using hs
    rw [if_pos hs, h0]
    simp
  · rw [if_neg hs, fcTrace_foldl]
    simp

/-- C10: the run's return value is created_bins followed by updated_bins;
in an iteration whose bin already exists, the bin is appended to
updated_bins exactly when it has at least one missing on-disk video file
and the host accepts the bulk import (a found bin with nothing missing is
never appended), and created_bins is untouched; in an iteration that
creates the bin, the bin name is appended to created_bins regardless of
the import flag, and updated_bins is untouched. -/
theorem C10_result_composition :
    (∀ (d : DiskModel) (today : String) (lib : Bin) (env : Env),
      create_media_bins_result d today lib env =
        (create_media_bins d today lib env).created ++
          (create_media_bins d today lib env).updated) ∧
    (∀ (d : DiskModel) (dp : String) (lv : List String) (env : Env) (st : RunState)
      (e : DirEntry) (n : Nat) (b : Bin),
      loadNumOf dp e = some (n + 1) →
      find_bin_by_name st.lib (binNameOf dp e) = some b →
      ((runStep d dp lv env st e).created = st.created ∧
       (runStep d dp lv env st e).updated = st.updated ++
         (if get_missing_files b.clips (subEntries d e.name) ≠ [] ∧ env.importOk = true
          then [binNameOf dp e] else []))) ∧
    (∀ (d : DiskModel) (dp : String) (lv : List String) (env : Env) (st : RunState)
      (e : DirEntry) (n : Nat),
      loadNumOf dp e = some (n + 1) →
      find_bin_by_name st.lib (binNameOf dp e) = none →
      env.createOk = true →
      ((runStep d dp lv env st e).created = st.created ++ [binNameOf dp e] ∧
       (runStep d dp lv env st e).updated = st.updated)) := by
  refine ⟨fun d today lib env => rfl, ?_, ?_⟩
  · intro d dp lv env st e n b hn hf
    have hbc : binClipsAt st.lib (binNameOf dp e) = b.clips := binClipsAt_of_find hf
    constructor
    · simp [runStep, hn, runProcess, hf]
    · have hflag := iv_flag st.lib (binNameOf dp e) (subEntries d e.name) env.importOk
        (st.lib.clips ++ get_missing_files (binClipsAt st.lib (binNameOf dp e))
          (subEntries d e.name))
      by_cases hcond : get_missing_files b.clips (subEntries d e.name) ≠ [] ∧ env.importOk = true
      · have hflagt : (import_vids st.lib (binNameOf dp e) (subEntries d e.name) env.importOk
            (st.lib.clips ++ get_missing_files (binClipsAt st.lib (binNameOf dp e))
              (subEntries d e.name))).2.1 = true := by
          rw [hflag]
          have hne : (get_missing_files (binClipsAt st.lib (binNameOf dp e))
              (subEntries d e.name)).isEmpty = false := by
            rw [hbc]
            simp [List.isEmpty_iff, hcond.1]
          rw [hne, hcond.2]
          rfl
        rw [hcond.2] at hflagt
        simp [runStep, hn, runProcess, hf, hflagt, hcond]
      · have hflagf : (import_vids st.lib (binNameOf dp e) (subEntries d e.name) env.importOk
            (st.lib.clips ++ get_missing_files (binClipsAt st.lib (binNameOf dp e))
              (subEntries d e.name))).2.1 = false := by
          rw [hflag]
          by_cases h1 : get_missing_files b.clips (subEntries d e.name) = []
          · have hemp : (get_missing_files (binClipsAt st.lib (binNameOf dp e))
                (subEntries d e.name)).isEmpty = true := by
              rw [hbc]
              simp [List.isEmpty_iff, h1]
            rw [hemp]
            rfl
          · have hok : env.importOk = false := by
              cases hok2 : env.importOk
              · rfl
              · exact absurd ⟨h1, hok2⟩ hcond
            rw [hok]
            simp
        simp [runStep, hn, runProcess, hf, hflagf, hcond]
  · intro d dp lv env st e n hn hf hc
    constructor
    · simp [runStep, hn, runProcess, hf, hc]
    · simp [runStep, hn, runProcess, hf, hc]
theorem iv_name (lib : Bin) (bn : String) (es : List DirEntry) (ok : Bool) (ra : List String) :
    (import_vids lib bn es ok ra).1.name = lib.name := by
  cases hemp : (get_missing_files (binClipsAt lib bn) es).isEmpty
  · cases ok
    · simp [import_vids, hemp]
    · simp [import_vids, hemp, name_updateBin, name_setRootClips]
  · simp [import_vids, hemp]

theorem ilv_name (lib : Bin) (bn : String) (n : Nat) (lv : List String) (ok : Bool)
    (ra : List String) : (import_load_video lib bn n lv ok ra).1.name = lib.name := by
  simp only [import_load_video]
  split
  · rfl
  · split
    · rfl
    · split
      · rfl
      · split
        · split
          · simp [name_updateBin, name_setRootClips]
          · simp [name_setRootClips]
        · rfl

theorem iv_hasName (lib : Bin) (bn : String) (es : List DirEntry) (ok : Bool)
    (ra : List String) (t : String) (h : hasName lib t = true) :
    hasName (import_vids lib bn es ok ra).1 t = true := by
  cases hemp : (get_missing_files (binClipsAt lib bn) es).isEmpty
  · cases ok
    · simp [import_vids, hemp, h]
    · simp [import_vids, hemp, hasName_updateBin, hasName_setRootClips, h]
  · simp [import_vids, hemp, h]

theorem ilv_hasName (lib : Bin) (bn : String) (n : Nat) (lv : List String) (ok : Bool)
    (ra : List String) (t : String) (h : hasName lib t = true) :
    hasName (import_load_video lib bn n lv ok ra).1 t = true := by
  simp only [import_load_video]
  split
  · exact h
  · split
    · exact h
    · split
      · exact h
      · split
        · split
          · simp [hasName_updateBin, hasName_setRootClips, h]
          · simp [hasName_setRootClips, h]
        · exact h

theorem mem_binClipsAt_update {lib : Bin} {t : String} {x : String} (bn : String)
    (L : List String) (f : List String → List String)
    (hroot : t ≠ lib.name) (hmono : ∀ cs, ∀ y ∈ cs, y ∈ f cs)
    (hx : x ∈ binClipsAt lib t) :
    x ∈ binClipsAt (updateBin (setRootClips lib L) bn f) t := by
  by_cases ht : t = bn
  · subst ht
    rw [binClipsAt, clipsAt_updateBin_self, clipsAt_setRootClips_ne _ hroot]
    cases hcl : clipsAt lib t with
    | none => rw [binClipsAt, hcl] at hx; simp at hx
    | some cl =>
        rw [binClipsAt, hcl] at hx
        exact hmono cl x hx
  · rw [binClipsAt, clipsAt_updateBin_ne _ _ _ _ ht, clipsAt_setRootClips_ne _ hroot]
    exact hx

theorem iv_mem (lib : Bin) (bn : String) (es : List DirEntry) (ok : Bool) (ra : List String)
    (t : String) (x : String) (hroot : t ≠ lib.name) (hx : x ∈ binClipsAt lib t) :
    x ∈ binClipsAt (import_vids lib bn es ok ra).1 t := by
  cases hemp : (get_missing_files (binClipsAt lib bn) es).isEmpty
  · cases ok
    · simpa [import_vids, hemp] using hx
    · simp only [import_vids, hemp]
      simp only [Bool.false_eq_true, if_false, if_true]
      exact mem_binClipsAt_update bn _ _ hroot (fun cs y hy => List.mem_append_left _ hy) hx
  · simpa [import_vids, hemp] using hx

theorem ilv_mem (lib : Bin) (bn : String) (n : Nat) (lv : List String) (ok : Bool)
    (ra : List String) (t : String) (x : String) (hroot : t ≠ lib.name)
    (hx : x ∈ binClipsAt lib t) :
    x ∈ binClipsAt (import_load_video lib bn n lv ok ra).1 t := by
  simp only [import_load_video]
  split
  · exact hx
  · split
    · exact hx
    · split
      · exact hx
      · split
        · split
          · exact mem_binClipsAt_update bn _ _ hroot
              (fun cs y hy => List.mem_append_left _ hy) hx
          · rw [binClipsAt, clipsAt_setRootClips_ne _ hroot]
            exact hx
        · exact hx
theorem iv_establish (lib : Bin) (bn : String) (es : List DirEntry)
    (hroot : bn ≠ lib.name) {cl : List String} (hcl : clipsAt lib bn = some cl) :
    hasName (import_vids lib bn es true
        (lib.clips ++ get_missing_files (binClipsAt lib bn) es)).1 bn = true ∧
    (∀ x ∈ videoFilesOf es,
      x ∈ binClipsAt (import_vids lib bn es true
        (lib.clips ++ get_missing_files (binClipsAt lib bn) es)).1 bn) := by
  have hbc : binClipsAt lib bn = cl := by simp [binClipsAt, hcl]
  have hhas : hasName lib bn = true := by rw [← clipsAt_isSome_eq_hasName, hcl]; rfl
  refine ⟨iv_hasName _ _ _ _ _ _ hhas, ?_⟩
  intro x hx
  cases hemp : (get_missing_files (binClipsAt lib bn) es).isEmpty
  · have hres : (import_vids lib bn es true
        (lib.clips ++ get_missing_files (binClipsAt lib bn) es)).1 =
        updateBin (setRootClips lib
            ((lib.clips ++ get_missing_files (binClipsAt lib bn) es).filter
              (fun c => decide (c ∉ get_missing_files (binClipsAt lib bn) es)))) bn
          (fun cs => cs ++ (lib.clips ++ get_missing_files (binClipsAt lib bn) es).filter
            (fun c => decide (c ∈ get_missing_files (binClipsAt lib bn) es))) := by
      simp [import_vids, hemp]
    rw [hres, binClipsAt, clipsAt_updateBin_self, clipsAt_setRootClips_ne _ hroot, hcl]
    show x ∈ cl ++ (lib.clips ++ get_missing_files (binClipsAt lib bn) es).filter
      (fun c => decide (c ∈ get_missing_files (binClipsAt lib bn) es))
    by_cases hin : x ∈ cl
    · exact List.mem_append_left _ hin
    · have hxm : x ∈ get_missing_files (binClipsAt lib bn) es :=
        mem_get_missing_files.mpr ⟨hx, by rwa [hbc]⟩
      refine List.mem_append_right _ (List.mem_filter.mpr ⟨List.mem_append_right _ hxm, ?_⟩)
      simpa using hxm
  · have hres : (import_vids lib bn es true
        (lib.clips ++ get_missing_files (binClipsAt lib bn) es)).1 = lib := by
      simp [import_vids, hemp]
    rw [hres]
    have hnil : get_missing_files (binClipsAt lib bn) es = [] := by
      simpa [List.isEmpty_iff] using hemp
    exact get_missing_files_eq_nil.mp hnil x hx

theorem ilv_establish (lib : Bin) (bn : String) (n : Nat) (lv : List String)
    (hroot : bn ≠ lib.name) {cl : List String} (hcl : clipsAt lib bn = some cl) :
    hasName (import_load_video lib bn (n + 1) lv true
        (lib.clips ++ [lv.getD n ""])).1 bn = true ∧
    (∀ x ∈ binClipsAt lib bn,
      x ∈ binClipsAt (import_load_video lib bn (n + 1) lv true
        (lib.clips ++ [lv.getD n ""])).1 bn) ∧
    (lv ≠ [] → n + 1 ≤ lv.length →
      lv.getD n "" ∈ binClipsAt (import_load_video lib bn (n + 1) lv true
        (lib.clips ++ [lv.getD n ""])).1 bn) := by
  have hhas : hasName lib bn = true := by rw [← clipsAt_isSome_eq_hasName, hcl]; rfl
  refine ⟨ilv_hasName _ _ _ _ _ _ _ hhas,
    fun x hx => ilv_mem _ _ _ _ _ _ _ _ hroot hx, ?_⟩
  intro hne hlen
  have hef : lv.isEmpty = false := by simp [List.isEmpty_iff, hne]
  have hnlt : ¬(lv.length < n + 1) := Nat.not_lt.mpr hlen
  by_cases hmem : lv.getD n "" ∈ binClipsAt lib bn
  · have hres : (import_load_video lib bn (n + 1) lv true (lib.clips ++ [lv.getD n ""])).1 =
        lib := by
      simp only [List.getD_eq_getElem?_getD] at hmem
      simp [import_load_video, hef, hnlt, Nat.add_sub_cancel, hmem]
    rw [hres]
    exact hmem
  · have hra : lv.getD n "" ∈ lib.clips ++ [lv.getD n ""] :=
      List.mem_append_right _ (List.mem_singleton.mpr rfl)
    have hres : (import_load_video lib bn (n + 1) lv true (lib.clips ++ [lv.getD n ""])).1 =
        updateBin (setRootClips lib ((lib.clips ++ [lv.getD n ""]).erase (lv.getD n ""))) bn
          (fun cs => cs ++ [lv.getD n ""]) := by
      simp only [List.getD_eq_getElem?_getD] at hmem hra
      simp [import_load_video, hef, hnlt, Nat.add_sub_cancel, hmem, hra]
    rw [hres, binClipsAt, clipsAt_updateBin_self, clipsAt_setRootClips_ne _ hroot, hcl]
    show lv.getD n "" ∈ cl ++ [lv.getD n ""]
    exact List.mem_append_right _ (List.mem_singleton.mpr rfl)
theorem runStep_name (d : DiskModel) (dp : String) (lv : List String) (env : Env)
    (st : RunState) (e : DirEntry) :
    (runStep d dp lv env st e).lib.name = st.lib.name := by
  cases hn : loadNumOf dp e with
  | none => simp [runStep, hn]
  | some m =>
      cases m with
      | zero => simp [runStep, hn]
      | succ k =>
          simp only [runStep, hn]
          cases hf : find_bin_by_name st.lib (binNameOf dp e) with
          | some b => simp [runProcess, hf, ilv_name, iv_name]
          | none =>
              by_cases hc : env.createOk = true
              · simp [runProcess, hf, hc, ilv_name, iv_name, name_addUnderRoot]
              · simp [runProcess, hf, hc]

theorem ilv_noop (lib : Bin) (bn : String) (m : Nat) (lv : List String) (ok : Bool)
    (ra : List String)
    (h3 : lv ≠ [] → m + 1 ≤ lv.length → lv.getD m "" ∈ binClipsAt lib bn) :
    (import_load_video lib bn (m + 1) lv ok ra).1 = lib ∧
    (import_load_video lib bn (m + 1) lv ok ra).2.2 = [] := by
  by_cases he : lv = []
  · subst he
    simp [import_load_video]
  · have hef : lv.isEmpty = false := by simp [List.isEmpty_iff, he]
    by_cases hlen : lv.length < m + 1
    · constructor <;> simp [import_load_video, hef, hlen]
    · have hmem := h3 he (Nat.le_of_not_lt hlen)
      simp only [List.getD_eq_getElem?_getD] at hmem
      constructor <;> simp [import_load_video, hef, hlen, Nat.add_sub_cancel, hmem]

theorem runStep_noop (d : DiskModel) (dp : String) (lv : List String) (env : Env)
    (st : RunState) (e : DirEntry) (h : Reconciled d dp lv st.lib e) :
    (runStep d dp lv env st e).lib = st.lib ∧
    (runStep d dp lv env st e).created = st.created ∧
    (runStep d dp lv env st e).updated = st.updated ∧
    (runStep d dp lv env st e).importCount = st.importCount := by
  cases hn : loadNumOf dp e with
  | none => simp [runStep, hn]
  | some k =>
      cases k with
      | zero => simp [runStep, hn]
      | succ m =>
          obtain ⟨h1, h2, h3⟩ := h m hn
          obtain ⟨b, hf⟩ : ∃ b, find_bin_by_name st.lib (binNameOf dp e) = some b := by
            have hh := find_isSome_eq_hasName st.lib (binNameOf dp e)
            rw [h1] at hh
            exact Option.isSome_iff_exists.mp hh
          have hmiss : get_missing_files (binClipsAt st.lib (binNameOf dp e))
              (subEntries d e.name) = [] := get_missing_files_eq_nil.mpr h2
          have hiv : import_vids st.lib (binNameOf dp e) (subEntries d e.name) env.importOk
              (st.lib.clips ++ get_missing_files (binClipsAt st.lib (binNameOf dp e))
                (subEntries d e.name)) = (st.lib, false, []) := by
            simp [import_vids, hmiss]
          have hno := ilv_noop st.lib (binNameOf dp e) m lv env.importOk
            (st.lib.clips ++ [lv.getD m ""]) h3
          simp only [List.getD_eq_getElem?_getD] at hno
          simp [runStep, hn, runProcess, hf, hiv, hno.1, hno.2]

theorem runStep_reconciles (d : DiskModel) (dp : String) (lv : List String) (env : Env)
    (st : RunState) (e : DirEntry)
    (himp : env.importOk = true) (hcr : env.createOk = true)
    (hroot : binNameOf dp e ≠ st.lib.name) :
    Reconciled d dp lv (runStep d dp lv env st e).lib e := by
  intro m hm
  simp only [runStep, hm, himp]
  cases hf : find_bin_by_name st.lib (binNameOf dp e) with
  | some b =>
      simp only [runProcess, hf, himp]
      have hcl : clipsAt st.lib (binNameOf dp e) = some b.clips := by simp [clipsAt, hf]
      obtain ⟨hv1, hv2⟩ := iv_establish st.lib (binNameOf dp e) (subEntries d e.name) hroot hcl
      obtain ⟨cl2, hcl2⟩ := clipsAt_of_hasName hv1
      have hroot2 : binNameOf dp e ≠ (import_vids st.lib (binNameOf dp e)
          (subEntries d e.name) true
          (st.lib.clips ++ get_missing_files (binClipsAt st.lib (binNameOf dp e))
            (subEntries d e.name))).1.name := by
        rw [iv_name]
        exact hroot
      obtain ⟨hw1, hw2, hw3⟩ := ilv_establish (import_vids st.lib (binNameOf dp e)
          (subEntries d e.name) true
          (st.lib.clips ++ get_missing_files (binClipsAt st.lib (binNameOf dp e))
            (subEntries d e.name))).1 (binNameOf dp e) m lv hroot2 hcl2
      exact ⟨hw1, fun x hx => hw2 x (hv2 x hx), hw3⟩
  | none =>
      simp only [runProcess, hf, hcr, if_true, himp]
      have hh : hasName st.lib (binNameOf dp e) = false := by
        have hh2 := find_isSome_eq_hasName st.lib (binNameOf dp e)
        rw [hf] at hh2
        exact hh2.symm
      have hcl0 : clipsAt (addUnderRoot st.lib (binNameOf dp e)) (binNameOf dp e) = some [] :=
        clipsAt_addUnderRoot_fresh hh
      have hroot0 : binNameOf dp e ≠ (addUnderRoot st.lib (binNameOf dp e)).name := by
        rw [name_addUnderRoot]
        exact hroot
      obtain ⟨hv1, hv2⟩ := iv_establish (addUnderRoot st.lib (binNameOf dp e))
        (binNameOf dp e) (subEntries d e.name) hroot0 hcl0
      obtain ⟨cl2, hcl2⟩ := clipsAt_of_hasName hv1
      have hroot2 : binNameOf dp e ≠ (import_vids (addUnderRoot st.lib (binNameOf dp e))
          (binNameOf dp e) (subEntries d e.name) true
          ((addUnderRoot st.lib (binNameOf dp e)).clips ++
            get_missing_files (binClipsAt (addUnderRoot st.lib (binNameOf dp e))
              (binNameOf dp e)) (subEntries d e.name))).1.name := by
        rw [iv_name, name_addUnderRoot]
        exact hroot
      obtain ⟨hw1, hw2, hw3⟩ := ilv_establish (import_vids (addUnderRoot st.lib (binNameOf dp e))
          (binNameOf dp e) (subEntries d e.name) true
          ((addUnderRoot st.lib (binNameOf dp e)).clips ++
            get_missing_files (binClipsAt (addUnderRoot st.lib (binNameOf dp e))
              (binNameOf dp e)) (subEntries d e.name))).1 (binNameOf dp e) m lv hroot2 hcl2
      exact ⟨hw1, fun x hx => hw2 x (hv2 x hx), hw3⟩

theorem runStep_preserves_reconciled (d : DiskModel) (dp : String) (lv : List String)
    (env : Env) (st : RunState) (e e' : DirEntry)
    (hroot' : binNameOf dp e' ≠ st.lib.name)
    (h : Reconciled d dp lv st.lib e') :
    Reconciled d dp lv (runStep d dp lv env st e).lib e' := by
  intro m hm
  obtain ⟨h1, h2, h3⟩ := h m hm
  simp only [List.getD_eq_getElem?_getD] at h3
  cases hn : loadNumOf dp e with
  | none => simpa [runStep, hn] using ⟨h1, h2, h3⟩
  | some k =>
      cases k with
      | zero => simpa [runStep, hn] using ⟨h1, h2, h3⟩
      | succ k =>
          simp only [runStep, hn]
          cases hf : find_bin_by_name st.lib (binNameOf dp e) with
          | some b =>
              simp only [runProcess, hf]
              have hroot1 : binNameOf dp e' ≠ (import_vids st.lib (binNameOf dp e)
                  (subEntries d e.name) env.importOk
                  (st.lib.clips ++ get_missing_files (binClipsAt st.lib (binNameOf dp e))
                    (subEntries d e.name))).1.name := by
                rw [iv_name]
                exact hroot'
              refine ⟨ilv_hasName _ _ _ _ _ _ _ (iv_hasName _ _ _ _ _ _ h1), ?_, ?_⟩
              · intro x hx
                exact ilv_mem _ _ _ _ _ _ _ _ hroot1 (iv_mem _ _ _ _ _ _ _ hroot' (h2 x hx))
              · intro ha hb
                simp only [List.getD_eq_getElem?_getD]
                exact ilv_mem _ _ _ _ _ _ _ _ hroot1 (iv_mem _ _ _ _ _ _ _ hroot' (h3 ha hb))
          | none =>
              by_cases hc : env.createOk = true
              · simp only [runProcess, hf, hc, if_true]
                have h1' : hasName (addUnderRoot st.lib (binNameOf dp e))
                    (binNameOf dp e') = true := by
                  rw [hasName_addUnderRoot, h1]
                  rfl
                have hroot0 : binNameOf dp e' ≠
                    (addUnderRoot st.lib (binNameOf dp e)).name := by
                  rw [name_addUnderRoot]
                  exact hroot'
                have hmem0 : ∀ x ∈ binClipsAt st.lib (binNameOf dp e'),
                    x ∈ binClipsAt (addUnderRoot st.lib (binNameOf dp e))
                      (binNameOf dp e') := by
                  intro x hx
                  rw [binClipsAt, clipsAt_addUnderRoot_of_hasName _ h1]
                  exact hx
                have hroot1 : binNameOf dp e' ≠ (import_vids
                    (addUnderRoot st.lib (binNameOf dp e)) (binNameOf dp e)
                    (subEntries d e.name) env.importOk
                    ((addUnderRoot st.lib (binNameOf dp e)).clips ++
                      get_missing_files (binClipsAt (addUnderRoot st.lib (binNameOf dp e))
                        (binNameOf dp e)) (subEntries d e.name))).1.name := by
                  rw [iv_name, name_addUnderRoot]
                  exact hroot'
                refine ⟨ilv_hasName _ _ _ _ _ _ _ (iv_hasName _ _ _ _ _ _ h1'), ?_, ?_⟩
                · intro x hx
                  exact ilv_mem _ _ _ _ _ _ _ _ hroot1
                    (iv_mem _ _ _ _ _ _ _ hroot0 (hmem0 x (h2 x hx)))
                · intro ha hb
                  simp only [List.getD_eq_getElem?_getD]
                  exact ilv_mem _ _ _ _ _ _ _ _ hroot1
                    (iv_mem _ _ _ _ _ _ _ hroot0 (hmem0 _ (h3 ha hb)))
              · simpa [runProcess, hf, hc] using ⟨h1, h2, h3⟩
theorem run1_reconciles (d : DiskModel) (dp : String) (lv : List String) (env : Env)
    (himp : env.importOk = true) (hcr : env.createOk = true) :
    ∀ (l : List DirEntry) (st : RunState),
    (∀ e ∈ l, binNameOf dp e ≠ st.lib.name) →
    ((l.foldl (runStep d dp lv env) st).lib.name = st.lib.name ∧
     (∀ e', binNameOf dp e' ≠ st.lib.name → Reconciled d dp lv st.lib e' →
       Reconciled d dp lv (l.foldl (runStep d dp lv env) st).lib e') ∧
     (∀ e ∈ l, Reconciled d dp lv (l.foldl (runStep d dp lv env) st).lib e))
  | [], st => fun _ => ⟨rfl, fun _ _ h => h, by simp⟩
  | e :: l, st => by
      intro hnames
      have hname1 : (runStep d dp lv env st e).lib.name = st.lib.name :=
        runStep_name d dp lv env st e
      have hnames' : ∀ x ∈ l, binNameOf dp x ≠ (runStep d dp lv env st e).lib.name := by
        intro x hx
        rw [hname1]
        exact hnames x (List.mem_cons_of_mem _ hx)
      obtain ⟨ihn, ihp, ihe⟩ :=
        run1_reconciles d dp lv env himp hcr l (runStep d dp lv env st e) hnames'
      refine ⟨?_, ?_, ?_⟩
      · rw [List.foldl_cons]
        exact ihn.trans hname1
      · intro e' hne' hrec
        rw [List.foldl_cons]
        exact ihp e' (by rw [hname1]; exact hne')
          (runStep_preserves_reconciled d dp lv env st e e' hne' hrec)
      · intro x hx
        rw [List.foldl_cons]
        rcases List.mem_cons.mp hx with rfl | hx'
        · have hrec0 : Reconciled d dp lv (runStep d dp lv env st x).lib x :=
            runStep_reconciles d dp lv env st x himp hcr (hnames x (List.mem_cons_self _ _))
          exact ihp x (by rw [hname1]; exact hnames x (List.mem_cons_self _ _)) hrec0
        · exact ihe x hx'

theorem run2_noop (d : DiskModel) (dp : String) (lv : List String) (env : Env) :
    ∀ (l : List DirEntry) (st : RunState),
    (∀ e ∈ l, Reconciled d dp lv st.lib e) →
    ((l.foldl (runStep d dp lv env) st).lib = st.lib ∧
     (l.foldl (runStep d dp lv env) st).created = st.created ∧
     (l.foldl (runStep d dp lv env) st).updated = st.updated ∧
     (l.foldl (runStep d dp lv env) st).importCount = st.importCount)
  | [], st => fun _ => ⟨rfl, rfl, rfl, rfl⟩
  | e :: l, st => by
      intro hrec
      obtain ⟨hl, hc, hu, hi⟩ :=
        runStep_noop d dp lv env st e (hrec e (List.mem_cons_self _ _))
      have hrec' : ∀ x ∈ l, Reconciled d dp lv (runStep d dp lv env st e).lib x := by
        intro x hx
        rw [hl]
        exact hrec x (List.mem_cons_of_mem _ hx)
      obtain ⟨ih1, ih2, ih3, ih4⟩ := run2_noop d dp lv env l (runStep d dp lv env st e) hrec'
      rw [List.foldl_cons]
      exact ⟨ih1.trans hl, ih2.trans hc, ih3.trans hu, ih4.trans hi⟩

/-- C7: running the full reconciliation twice against an unchanged disk is
idempotent: the second run creates zero bins, issues zero ImportMedia
calls, and reports zero created and zero updated bins.  Hypotheses: the
host accepts every ImportMedia and AddSubFolder request (with a failing
host a second run would re-attempt the failed work), and no subfolder's
composite bin name coincides with the root bin's own name (in DaVinci
Resolve the root bin is named Master while every composite name starts
with a ####-##-## date prefix; a root bin that shadowed a composite name
could lose clips to later moves, breaking idempotence). -/
theorem C7_idempotent (d : DiskModel) (today : String) (lib : Bin) (env : Env)
    (himp : env.importOk = true) (hcr : env.createOk = true)
    (hroot : ∀ e ∈ d.entries.filter (fun x => !x.isFile),
      binNameOf (derive_date_pref d.rootName today) e ≠ lib.name) :
    (create_media_bins d today (create_media_bins d today lib env).lib env).created = [] ∧
    (create_media_bins d today (create_media_bins d today lib env).lib env).updated = [] ∧
    (create_media_bins d today (create_media_bins d today lib env).lib env).importCount = 0 := by
  by_cases hs : (d.entries.filter (fun x => !x.isFile)).isEmpty = true
  · refine ⟨?_, ?_, ?_⟩ <;> simp [create_media_bins, hs]
  · have hr1 : create_media_bins d today lib env =
        (d.entries.filter (fun x => !x.isFile)).foldl
          (runStep d (derive_date_pref d.rootName today)
            (find_and_sort_load_videos d.entries) env) ⟨lib, [], [], 0, []⟩ := by
      simp [create_media_bins, hs]
    obtain ⟨hn1, _, hrec1⟩ := run1_reconciles d (derive_date_pref d.rootName today)
      (find_and_sort_load_videos d.entries) env himp hcr
      (d.entries.filter (fun x => !x.isFile)) ⟨lib, [], [], 0, []⟩
      (fun e he => hroot e he)
    have hrec2 : ∀ e ∈ d.entries.filter (fun x => !x.isFile),
        Reconciled d (derive_date_pref d.rootName today) (find_and_sort_load_videos d.entries)
          (RunState.mk (create_media_bins d today lib env).lib [] [] 0 []).lib e := by
      intro e he
      show Reconciled d (derive_date_pref d.rootName today)
        (find_and_sort_load_videos d.entries) (create_media_bins d today lib env).lib e
      rw [hr1]
      exact hrec1 e he
    obtain ⟨_, h2, h3, h4⟩ := run2_noop d (derive_date_pref d.rootName today)
      (find_and_sort_load_videos d.entries) env
      (d.entries.filter (fun x => !x.isFile))
      ⟨(create_media_bins d today lib env).lib, [], [], 0, []⟩ hrec2
    have hr2 : create_media_bins d today (create_media_bins d today lib env).lib env =
        (d.entries.filter (fun x => !x.isFile)).foldl
          (runStep d (derive_date_pref d.rootName today)
            (find_and_sort_load_videos d.entries) env)
          ⟨(create_media_bins d today lib env).lib, [], [], 0, []⟩ := by
      simp [create_media_bins, hs]
    rw [hr2]
    exact ⟨h2, h3, h4⟩
/-- Witness for C7 on a concrete disk and an empty Master library: after
the first run creates and fills the bin, the second run creates nothing,
updates nothing and issues no import call. -/
theorem C7_witness :
    ((Env.mk true true).importOk = true ∧ (Env.mk true true).createOk = true ∧
     ∀ e ∈ (DiskModel.mk "2024-11-22 S" [⟨"A - L1", false⟩, ⟨"v_1.mp4", true⟩]
        [("A - L1", [⟨"a.mp4", true⟩])]).entries.filter (fun x => !x.isFile),
       binNameOf (derive_date_pref (DiskModel.mk "2024-11-22 S"
           [⟨"A - L1", false⟩, ⟨"v_1.mp4", true⟩]
           [("A - L1", [⟨"a.mp4", true⟩])]).rootName "2025-01-01") e ≠
         (Bin.node "Master" [] .nil).name) ∧
    ((create_media_bins
        ⟨"2024-11-22 S", [⟨"A - L1", false⟩, ⟨"v_1.mp4", true⟩], [("A - L1", [⟨"a.mp4", true⟩])]⟩
        "2025-01-01"
        (create_media_bins
          ⟨"2024-11-22 S", [⟨"A - L1", false⟩, ⟨"v_1.mp4", true⟩], [("A - L1", [⟨"a.mp4", true⟩])]⟩
          "2025-01-01" (.node "Master" [] .nil) ⟨true, true⟩).lib
        ⟨true, true⟩).created = [] ∧
     (create_media_bins
        ⟨"2024-11-22 S", [⟨"A - L1", false⟩, ⟨"v_1.mp4", true⟩], [("A - L1", [⟨"a.mp4", true⟩])]⟩
        "2025-01-01"
        (create_media_bins
          ⟨"2024-11-22 S", [⟨"A - L1", false⟩, ⟨"v_1.mp4", true⟩], [("A - L1", [⟨"a.mp4", true⟩])]⟩
          "2025-01-01" (.node "Master" [] .nil) ⟨true, true⟩).lib
        ⟨true, true⟩).updated = [] ∧
     (create_media_bins
        ⟨"2024-11-22 S", [⟨"A - L1", false⟩, ⟨"v_1.mp4", true⟩], [("A - L1", [⟨"a.mp4", true⟩])]⟩
        "2025-01-01"
        (create_media_bins
          ⟨"2024-11-22 S", [⟨"A - L1", false⟩, ⟨"v_1.mp4", true⟩], [("A - L1", [⟨"a.mp4", true⟩])]⟩
          "2025-01-01" (.node "Master" [] .nil) ⟨true, true⟩).lib
        ⟨true, true⟩).importCount = 0) :=
  ⟨⟨rfl, rfl, by decide⟩,
   C7_idempotent
     ⟨"2024-11-22 S", [⟨"A - L1", false⟩, ⟨"v_1.mp4", true⟩], [("A - L1", [⟨"a.mp4", true⟩])]⟩
     "2025-01-01" (.node "Master" [] .nil) ⟨true, true⟩ rfl rfl (by decide)⟩

/-- Witness for C10 on a concrete iteration whose bin already exists with
one missing file: the bin lands in updated_bins and created_bins is
untouched. -/
theorem C10_witness :
    loadNumOf "2024-11-22" ⟨"A - L1", false⟩ = some 1 ∧
    find_bin_by_name (RunState.mk
        (.node "Master" [] (.cons (.node "2024-11-22 - A - L1" [] .nil) .nil)) [] [] 0 []).lib
        (binNameOf "2024-11-22" ⟨"A - L1", false⟩) =
      some (.node "2024-11-22 - A - L1" [] .nil) ∧
    ((runStep ⟨"2024-11-22 X", [⟨"A - L1", false⟩], [("A - L1", [⟨"x.mp4", true⟩])]⟩
        "2024-11-22" [] ⟨true, true⟩
        ⟨.node "Master" [] (.cons (.node "2024-11-22 - A - L1" [] .nil) .nil), [], [], 0, []⟩
        ⟨"A - L1", false⟩).created = [] ∧
     (runStep ⟨"2024-11-22 X", [⟨"A - L1", false⟩], [("A - L1", [⟨"x.mp4", true⟩])]⟩
        "2024-11-22" [] ⟨true, true⟩
        ⟨.node "Master" [] (.cons (.node "2024-11-22 - A - L1" [] .nil) .nil), [], [], 0, []⟩
        ⟨"A - L1", false⟩).updated = [] ++
       (if get_missing_files (Bin.node "2024-11-22 - A - L1" [] .nil).clips
            (subEntries ⟨"2024-11-22 X", [⟨"A - L1", false⟩], [("A - L1", [⟨"x.mp4", true⟩])]⟩
              "A - L1") ≠ [] ∧ (Env.mk true true).importOk = true
        then [binNameOf "2024-11-22" ⟨"A - L1", false⟩] else [])) :=
  ⟨by decide, rfl,
   C10_result_composition.2.1
     ⟨"2024-11-22 X", [⟨"A - L1", false⟩], [("A - L1", [⟨"x.mp4", true⟩])]⟩
     "2024-11-22" [] ⟨true, true⟩
     ⟨.node "Master" [] (.cons (.node "2024-11-22 - A - L1" [] .nil) .nil), [], [], 0, []⟩
     ⟨"A - L1", false⟩ 0 (.node "2024-11-22 - A - L1" [] .nil) (by decide) rfl⟩
end SkyDive
